import Mathlib

/-!
# A verification development for the `diagnoser` static type diagnoser

This file gives a shallow embedding, in Lean 4, of the core data model and
operations of the `diagnoser` codebase (a static type diagnoser for BEAM
modules written in Rust), together with theorems settling a list of claims
made by its natural-language specification.

Modelling conventions, used uniformly below:
* Rust `HashMap<K, V>` fields are modelled as association lists
  `List (K × V)` with insert-or-replace semantics (`alInsert`) and
  first-match lookup (`alGet`); only lookup behaviour is observable.
* Rust `HashSet<T>` fields are modelled as duplicate-free `List T`
  (`hsInsert` inserts only when absent); only membership is observable.
* A Rust panic (`panic!`, `unimplemented!`, `unwrap` of `None`, failed
  `assert!`, out-of-bounds indexing) aborts the process; a function that can
  panic is modelled with an `Option` result, `none` meaning the abort.
* `i64` values are modelled as `Int`; the `num::BigInt -> Option<i64>`
  conversion `to_i64` is modelled with its explicit range check.
* `usize` values used as identifiers/counters are modelled as `Nat`.
-/

/-- Lookup in an association list (the model of `HashMap` lookup). -/
def alGet {κ α : Type} [DecidableEq κ] (l : List (κ × α)) (k : κ) : Option α :=
  (l.find? (fun p => p.1 = k)).map (·.2)

/-- Insert-or-replace in an association list (the model of `HashMap::insert`). -/
def alInsert {κ α : Type} [DecidableEq κ] : List (κ × α) → κ → α → List (κ × α)
  | [], k, v => [(k, v)]
  | (k', v') :: rest, k, v =>
    if k' = k then (k, v) :: rest else (k', v') :: alInsert rest k v

/-- Insert into a set modelled as a duplicate-free list (`HashSet::insert`). -/
def hsInsert (s : List Nat) (x : Nat) : List Nat :=
  if x ∈ s then s else x :: s

namespace ty

/-- `src/ty.rs` `IntegerType`: a closed integer interval; an absent bound means
infinity on that side. -/
structure IntegerType where
  min : Option Int
  max : Option Int

/-- `IntegerType::min(v)` builder method (renamed `withMin`: in Lean the name
`min` is taken by the field projection). -/
def IntegerType.withMin (t : IntegerType) (value : Int) : IntegerType :=
  { t with min := some value }

/-- `IntegerType::max(v)` builder method (renamed `withMax`, as above). -/
def IntegerType.withMax (t : IntegerType) (value : Int) : IntegerType :=
  { t with max := some value }

/-- `IntegerType::value(v) = self.min(v).max(v)`. -/
def IntegerType.value (t : IntegerType) (v : Int) : IntegerType :=
  (t.withMin v).withMax v

/-- `IntegerType::get_single_value`: `if self.min == self.max { self.min } else { None }`. -/
def IntegerType.getSingleValue (t : IntegerType) : Option Int :=
  if t.min = t.max then t.min else none

/-- `IntegerType::is_any`: both bounds absent. -/
def IntegerType.isAny (t : IntegerType) : Bool :=
  t.min.isNone && t.max.isNone

/-- `src/ty.rs` free function `integer()`: the unbounded interval. -/
def integer : IntegerType := { min := none, max := none }

mutual
/-- `src/ty.rs` `enum Type`, the type lattice.  The Rust enum boxes a payload
struct per variant; payload structs whose only role is to carry fields are
inlined as constructor arguments (`FunSpec {args, return_type}` becomes the
pair `Option (List Ty) × Ty`; `MapPair {key, value}` becomes `Ty × Ty`;
`RecordField {name, value}` becomes `String × Ty`). -/
inductive Ty where
  | anyTy
  | noneTy
  | pidTy
  | portTy
  | referenceTy
  | nilTy
  | atomTy (value : Option String)
  | bitstringTy (bits : Option Nat) (align : Option Nat)
  | floatTy
  | funTy (clauses : List (Option (List Ty) × Ty))
  | integerTy (t : IntegerType)
  | listTy (t : ListTy)
  | mapTy (pairs : List (Ty × Ty))
  | recordTy (name : String) (fields : List (String × Ty))
  | tupleTy (elements : Option (List Ty))
  | unionTy (types : List Ty)
  | userDefinedTy (isOpaque : Bool) (name : String) (body : Ty)
  | localTy (name : String) (args : List Ty)
  | remoteTy (moduleName : String) (name : String) (args : List Ty)
  | varTy (name : String) (value : Option Ty)

/-- `src/ty.rs` `enum ListType`: the four list shapes. -/
inductive ListTy where
  | proper (element : Ty)
  | maybeImproper (element : Ty) (last : Ty)
  | nonEmpty (element : Ty)
  | nonEmptyImproper (element : Ty) (last : Ty)
end

/-- `src/ty.rs` free function `atom(name)`. -/
def atom (name : String) : Ty := Ty.atomTy (some name)

/-- `src/ty.rs` free function `union(types)` (no flattening, no dedup). -/
def union (types : List Ty) : Ty := Ty.unionTy types

/-- `src/ty.rs` free function `local(name, args)`. -/
def localFn (name : String) (args : List Ty) : Ty := Ty.localTy name args

/-- `src/ty.rs` `Type::bind`: the body is `unimplemented!()`, so every call
panics.  The panic is modelled as `none`. -/
def Ty.bind (_self : Ty) (_bindings : List (String × Ty)) : Option Ty :=
  none

/-- `src/ty.rs` `UserDefinedClass`: a parameterised user type declaration. -/
structure UserDefinedClass where
  isOpaque : Bool
  name : String
  vars : List String
  body : Ty

/-- `src/ty.rs` `impl TypeClass for UserDefinedClass`: assert
`vars.len() == args.len()` (failure panics), zip vars with args into a
bindings map, substitute via `body.bind`, wrap in `UserDefinedType`. -/
def UserDefinedClass.makeInstance (c : UserDefinedClass) (args : List Ty) : Option Ty :=
  if c.vars.length = args.length then
    (c.body.bind (c.vars.zip args)).map (fun b => Ty.userDefinedTy c.isOpaque c.name b)
  else
    none

/-- `src/ty.rs` blanket `impl TypeClass for T where T: ProtoType, Type: From<T>`:
`make_instance` asserts `args.is_empty()` (failure panics) and returns
`From::from(self.clone())`.  A boxed prototype is represented here by its
image under `From` in the `Ty` lattice, so the blanket impl returns the
prototype itself. -/
def protoMakeInstance (t : Ty) (args : List Ty) : Option Ty :=
  if args.isEmpty then some t else none

/-- The `type opt(T) :: T | undefined` declaration of spec scenario S3, as a
`UserDefinedClass` (vars `[T]`, body `T | 'undefined'`). -/
def optClass : UserDefinedClass :=
  { isOpaque := false
    name := "opt"
    vars := ["T"]
    body := union [Ty.varTy "T" none, atom "undefined"] }

end ty

namespace erl_type

mutual
/-- `src/erl_type.rs` `enum Type`.  This module is a near-duplicate of
`src/ty.rs`; the one structural difference relevant here is `FunType`, which
carries `spec: Option<FunSpec>` instead of `clauses: Vec<FunSpec>`.  Payload
structs are inlined as in `ty.Ty`, and `IntegerType` is the same
`{min, max}` interval record (reused from `ty`). -/
inductive Ty where
  | anyTy
  | noneTy
  | pidTy
  | portTy
  | referenceTy
  | nilTy
  | atomTy (value : Option String)
  | bitstringTy (bits : Option Nat) (align : Option Nat)
  | floatTy
  | funTy (spec : Option (Option (List Ty) × Ty))
  | integerTy (t : ty.IntegerType)
  | listTy (t : ListTy)
  | mapTy (pairs : List (Ty × Ty))
  | recordTy (name : String) (fields : List (String × Ty))
  | tupleTy (elements : Option (List Ty))
  | unionTy (types : List Ty)
  | userDefinedTy (isOpaque : Bool) (name : String) (body : Ty)
  | localTy (name : String) (args : List Ty)
  | remoteTy (moduleName : String) (name : String) (args : List Ty)
  | varTy (name : String) (value : Option Ty)

/-- `src/erl_type.rs` `enum ListType`. -/
inductive ListTy where
  | proper (element : Ty)
  | maybeImproper (element : Ty) (last : Ty)
  | nonEmpty (element : Ty)
  | nonEmptyImproper (element : Ty) (last : Ty)
end

/-- `src/erl_type.rs` free function `atom(name)`. -/
def atom (name : String) : Ty := Ty.atomTy (some name)

/-- `src/erl_type.rs` free function `union(types)`. -/
def union (types : List Ty) : Ty := Ty.unionTy types

/-- `src/erl_type.rs` free function `local(name, args)`. -/
def localFn (name : String) (args : List Ty) : Ty := Ty.localTy name args

/-- `src/erl_type.rs` `builtin(name, args)`, which desugars to `local`. -/
def builtin (name : String) (args : List Ty) : Ty := localFn name args

/-- `src/erl_type.rs` `builtin0`. -/
def builtin0 (name : String) : Ty := localFn name []

/-- `src/erl_type.rs` `builtin1`. -/
def builtin1 (name : String) (a0 : Ty) : Ty := localFn name [a0]

/-- `src/erl_type.rs` `builtin2`. -/
def builtin2 (name : String) (a0 a1 : Ty) : Ty := localFn name [a0, a1]

/-- `src/erl_type.rs` `tuple3(t0, t1, t2)` (its `TupleType` result shown here
as its `Type` image under `From`). -/
def tuple3 (t0 t1 t2 : Ty) : Ty := Ty.tupleTy (some [t0, t1, t2])

/-- `src/erl_type.rs` trait objects `Box<TypeClass>`: either one of the four
parameterised list classes, a `UserDefinedClass`, or (via the blanket impl
for `ProtoType`) a boxed prototype, represented by its image under `From` in
the `Ty` lattice. -/
inductive TypeClassV where
  | proto (t : Ty)
  | properListClass
  | maybeImproperListClass
  | nonEmptyListClass
  | nonEmptyImproperListClass
  | userDefinedClass (isOpaque : Bool) (name : String) (vars : List String) (body : Ty)

/-- `src/erl_type.rs` `Type::bind` is `unimplemented!()` (panics), as in
`ty.rs`. -/
def Ty.bind (_self : Ty) (_bindings : List (String × Ty)) : Option Ty :=
  none

/-- `TypeClass::make_instance` dispatched over the trait-object variants:
the blanket impl asserts `args.is_empty()`; the list classes assert arity
1 or 2; `UserDefinedClass` asserts `vars.len() == args.len()` and
substitutes via `Type::bind`.  Failed assertions and panics are `none`. -/
def TypeClassV.makeInstance : TypeClassV → List Ty → Option Ty
  | .proto t, args => if args.isEmpty then some t else none
  | .properListClass, [e] => some (.listTy (.proper e))
  | .properListClass, _ => none
  | .maybeImproperListClass, [e, l] => some (.listTy (.maybeImproper e l))
  | .maybeImproperListClass, _ => none
  | .nonEmptyListClass, [e] => some (.listTy (.nonEmpty e))
  | .nonEmptyListClass, _ => none
  | .nonEmptyImproperListClass, [e, l] => some (.listTy (.nonEmptyImproper e l))
  | .nonEmptyImproperListClass, _ => none
  | .userDefinedClass isOpaque name vars body, args =>
    if vars.length = args.length then
      (Ty.bind body (vars.zip args)).map (Ty.userDefinedTy isOpaque name)
    else none

end erl_type

namespace typing

/-- `src/typing.rs` `TypeKey`: `module = None` means a built-in type.
The `arity` field is a Rust `u8`, modelled as `Nat` (every arity written by
`built_in_types` or reachable from it is below 256). -/
structure TypeKey where
  module : Option String
  name : String
  arity : Nat
deriving DecidableEq

/-- `TypeKey::builtin(name, arity)`. -/
def TypeKey.builtin (name : String) (arity : Nat) : TypeKey :=
  { module := none, name := name, arity := arity }

/-- `TypeKey::remote(module, name, arity)`. -/
def TypeKey.remote (moduleName : String) (name : String) (arity : Nat) : TypeKey :=
  { module := some moduleName, name := name, arity := arity }

/-- Local helper `a0` inside `built_in_types`. -/
def a0 (name : String) : TypeKey := TypeKey.builtin name 0

/-- Local helper `a1` inside `built_in_types`. -/
def a1 (name : String) : TypeKey := TypeKey.builtin name 1

/-- Local helper `a2` inside `built_in_types`.  NOTE: the source reads
`fn a2(name: &str) -> TypeKey { TypeKey::builtin(name, 1) }` — it returns
arity 1, not 2; the model reproduces the source verbatim. -/
def a2 (name : String) : TypeKey := TypeKey.builtin name 1

end typing

namespace typing

open erl_type

/-- `src/typing.rs` `built_in_types()`: the seed list of
`(TypeKey, Box<TypeClass>)` pairs, in source order.  Boxed prototypes appear
as `TypeClassV.proto` of their `Ty` image (including boxed `Type` values such
as `builtin0("any")`, for which `From` is the identity). -/
def built_in_types : List (TypeKey × TypeClassV) :=
  [(a0 "any", .proto .anyTy),
   (a0 "none", .proto .noneTy),
   (a0 "pid", .proto .pidTy),
   (a0 "port", .proto .portTy),
   (a0 "reference", .proto .referenceTy),
   (a0 "nil", .proto .nilTy),
   (a0 "atom", .proto (.atomTy none)),
   (a0 "float", .proto .floatTy),
   (a0 "fun", .proto (.funTy none)),
   (a0 "integer", .proto (.integerTy ty.integer)),
   (a1 "list", .properListClass),
   (a2 "maybe_improper_list", .maybeImproperListClass),
   (a2 "nonempty_improper_list", .nonEmptyImproperListClass),
   (a1 "nonempty_list", .nonEmptyListClass),
   (a0 "map", .proto (.mapTy [])),
   (a0 "tuple", .proto (.tupleTy none)),
   (a0 "non_neg_integer", .proto (.integerTy (ty.integer.withMin 0))),
   (a0 "pos_integer", .proto (.integerTy (ty.integer.withMin 1))),
   (a0 "neg_integer", .proto (.integerTy (ty.integer.withMax (-1)))),
   (a0 "term", .proto (builtin0 "any")),
   (a0 "binary", .proto (.bitstringTy none (some 8))),
   (a0 "bitstring", .proto (.bitstringTy none (some 1))),
   (a0 "boolean", .proto (union [atom "true", atom "false"])),
   (a0 "byte", .proto (.integerTy ((ty.integer.withMin 0).withMax 255))),
   (a0 "char", .proto (.integerTy ((ty.integer.withMin 0).withMax 0x10ffff))),
   (a0 "number", .proto (union [builtin0 "integer", builtin0 "float"])),
   (a0 "list", .proto (builtin1 "list" (builtin0 "any"))),
   (a0 "maybe_improper_list",
    .proto (builtin2 "maybe_improper_list" (builtin0 "any") (builtin0 "any"))),
   (a0 "nonempty_list", .proto (builtin1 "nonempty_list" (builtin0 "any"))),
   (a0 "string", .proto (builtin1 "list" (builtin0 "char"))),
   (a0 "nonempty_string", .proto (builtin1 "nonempty_list" (builtin0 "char"))),
   (a0 "iodata", .proto (union [builtin0 "iolist", builtin0 "binary"])),
   (a0 "iolist",
    .proto (builtin1 "maybe_improper_list"
      (union [builtin0 "byte", builtin0 "binary", builtin0 "iolist",
              builtin0 "binary", builtin0 "nil"]))),
   (a0 "function", .proto (builtin0 "fun")),
   (a0 "module", .proto (builtin0 "atom")),
   (a0 "mfa", .proto (tuple3 (builtin0 "module") (builtin0 "atom") (builtin0 "arity"))),
   (a0 "arity", .proto (.integerTy ((ty.integer.withMin 0).withMax 255))),
   (a0 "identifier",
    .proto (union [builtin0 "pid", builtin0 "port", builtin0 "reference"])),
   (a0 "node", .proto (builtin0 "atom")),
   (a0 "timeout", .proto (union [atom "infinity", builtin0 "non_neg_integer"])),
   (a0 "no_return", .proto .noneTy)]

/-- `src/typing.rs` `Env::new()` builds `types` as
`HashMap::from_iter(built_in_types())`: sequential insertion, so on duplicate
keys the later entry wins.  A lookup in that map therefore returns the value
of the last list entry with the given key. -/
def envTypesGet (key : TypeKey) : Option TypeClassV :=
  alGet built_in_types.reverse key

end typing

namespace graph

/-- `src/graph.rs` `type NodeId = usize`. -/
abbrev NodeId := Nat

/-- `src/graph.rs` `type EdgeId = usize`. -/
abbrev EdgeId := Nat

/-- `src/graph.rs` `enum EdgeKind`. -/
inductive EdgeKind where
  | param (i : Nat)
  | arg (i : Nat)
  | ret
  | conj
  | matchK
  | funK
  | moduleK
  | unknown
deriving DecidableEq

/-- `src/graph.rs` `Val`: the producible/consumable type pair of a value node. -/
structure Val where
  producibleType : ty.Ty
  consumableType : ty.Ty

/-- `Val::new()`: producible = consumable = `Any`. -/
def Val.new : Val :=
  { producibleType := ty.Ty.anyTy, consumableType := ty.Ty.anyTy }

/-- `Val::new_any()`: producible = consumable = `Any`. -/
def Val.newAny : Val :=
  { producibleType := ty.Ty.anyTy, consumableType := ty.Ty.anyTy }

/-- `Val::new_var()`: producible = `None`, consumable = `Any`. -/
def Val.newVar : Val :=
  { producibleType := ty.Ty.noneTy, consumableType := ty.Ty.anyTy }

/-- `Val::with_type(ty)`: producible = consumable = the given type. -/
def Val.withType (t : ty.Ty) : Val :=
  { producibleType := t, consumableType := t }

/-- `src/graph.rs` `Fun` content: ordered argument node ids plus return node id. -/
structure FunContent where
  args : List NodeId
  returnValue : NodeId
deriving DecidableEq

/-- `src/graph.rs` `LocalCall` content. -/
structure LocalCallContent where
  funNode : NodeId
  args : List NodeId
  returnValue : NodeId
deriving DecidableEq

/-- `src/graph.rs` `RemoteCall` content. -/
structure RemoteCallContent where
  moduleNode : NodeId
  funNode : NodeId
  args : List NodeId
  returnValue : NodeId
deriving DecidableEq

/-- `src/graph.rs` `Conj` content. -/
structure ConjContent where
  nodes : List NodeId
deriving DecidableEq

/-- `src/graph.rs` `enum Content`. -/
inductive Content where
  | funC (f : FunContent)
  | val (v : Val)
  | localCall (c : LocalCallContent)
  | remoteCall (c : RemoteCallContent)
  | conj (c : ConjContent)

/-- `src/graph.rs` `Node`.  The `depends_on: Vec<Target>` field is omitted:
it is initialised empty and never read or written by any operation modelled
here. -/
structure Node where
  id : NodeId
  content : Content
  edges : List EdgeId

/-- `Node::new(id, content)`: empty edge set. -/
def Node.new (id : NodeId) (content : Content) : Node :=
  { id := id, content := content, edges := [] }

/-- `src/graph.rs` `Edge`. -/
structure Edge where
  id : EdgeId
  kind : EdgeKind
  producer : NodeId
  consumer : NodeId

/-- `src/graph.rs` `Graph`: monotone id counters plus the two arenas. -/
structure Graph where
  nextNodeId : NodeId
  nextEdgeId : EdgeId
  nodes : List (NodeId × Node)
  edges : List (EdgeId × Edge)

/-- `Graph::new()`. -/
def Graph.new : Graph :=
  { nextNodeId := 0, nextEdgeId := 0, nodes := [], edges := [] }

/-- `Graph::next_node_id`: returns the counter and increments it. -/
def Graph.nextNodeIdStep (g : Graph) : NodeId × Graph :=
  (g.nextNodeId, { g with nextNodeId := g.nextNodeId + 1 })

/-- `Graph::next_edge_id`: returns the counter and increments it. -/
def Graph.nextEdgeIdStep (g : Graph) : EdgeId × Graph :=
  (g.nextEdgeId, { g with nextEdgeId := g.nextEdgeId + 1 })

/-- `Graph::new_node` (private): fresh id, insert `Node::new`. -/
def Graph.newNode (g : Graph) (content : Content) : NodeId × Graph :=
  let (nodeId, g) := g.nextNodeIdStep
  (nodeId, { g with nodes := alInsert g.nodes nodeId (Node.new nodeId content) })

/-- `Graph::add_edge(kind, producer, consumer)`: insert the edge, then
register its id with both endpoint nodes; `get_mut(..).unwrap()` panics
(`none`) when an endpoint is missing. -/
def Graph.addEdge (g : Graph) (kind : EdgeKind) (producer consumer : NodeId) :
    Option (EdgeId × Graph) :=
  let (id, g) := g.nextEdgeIdStep
  let edge : Edge := { id := id, kind := kind, producer := producer, consumer := consumer }
  let g := { g with edges := alInsert g.edges id edge }
  match alGet g.nodes producer with
  | none => none
  | some pn =>
    let g := { g with nodes := alInsert g.nodes producer { pn with edges := hsInsert pn.edges id } }
    match alGet g.nodes consumer with
    | none => none
    | some cn =>
      some (id, { g with nodes := alInsert g.nodes consumer { cn with edges := hsInsert cn.edges id } })

/-- `Graph::new_value_node(value)`. -/
def Graph.newValueNode (g : Graph) (value : Val) : NodeId × Graph :=
  g.newNode (.val value)

/-- `Fun::new(graph, arity)` creates `arity` fresh `Val::new` argument nodes
(in order) and one fresh `Val::new` return node.  The argument-creating loop
`(0..arity).map(|_| graph.new_value_node(Val::new())).collect()` is the
helper `funNewArgs`. -/
def funNewArgs : Nat → Graph → List NodeId × Graph
  | 0, g => ([], g)
  | n + 1, g =>
    let (id, g) := g.newValueNode Val.new
    let (rest, g) := funNewArgs n g
    (id :: rest, g)

/-- `Fun::new(graph, arity)`. -/
def Fun.new (g : Graph) (arity : Nat) : FunContent × Graph :=
  let (args, g) := funNewArgs arity g
  let (returnValue, g) := g.newValueNode Val.new
  ({ args := args, returnValue := returnValue }, g)

/-- `Graph::new_external_fun_node(arity)`. -/
def Graph.newExternalFunNode (g : Graph) (arity : Nat) : NodeId × Graph :=
  let (f, g) := Fun.new g arity
  g.newNode (.funC f)

/-- `LocalCall::new(graph, fun, args)`: fresh return node. -/
def LocalCall.new (g : Graph) (f : NodeId) (args : List NodeId) :
    LocalCallContent × Graph :=
  let (returnValue, g) := g.newValueNode Val.new
  ({ funNode := f, args := args, returnValue := returnValue }, g)

/-- `Graph::new_local_call_node(fun, args)`. -/
def Graph.newLocalCallNode (g : Graph) (f : NodeId) (args : List NodeId) :
    NodeId × Graph :=
  let (call, g) := LocalCall.new g f args
  g.newNode (.localCall call)

/-- `RemoteCall::new(graph, module, fun, args)`: fresh return node. -/
def RemoteCall.new (g : Graph) (m f : NodeId) (args : List NodeId) :
    RemoteCallContent × Graph :=
  let (returnValue, g) := g.newValueNode Val.new
  ({ moduleNode := m, funNode := f, args := args, returnValue := returnValue }, g)

/-- `Graph::new_remote_call_node(module, fun, args)`. -/
def Graph.newRemoteCallNode (g : Graph) (m f : NodeId) (args : List NodeId) :
    NodeId × Graph :=
  let (call, g) := RemoteCall.new g m f args
  g.newNode (.remoteCall call)

/-- The edge-adding loop of `Graph::new_conj`: `for id in nodes { self.add_edge(Conj, id, conj_id); }`. -/
def Graph.addConjEdges (g : Graph) (conjId : NodeId) : List NodeId → Option Graph
  | [] => some g
  | id :: rest =>
    match g.addEdge .conj id conjId with
    | none => none
    | some (_, g') => g'.addConjEdges conjId rest

/-- `Graph::new_conj(nodes)`: create the `Conj` node (`Conj::new` just stores
the list), then add a `Conj`-kind edge from each child to it. -/
def Graph.newConj (g : Graph) (nodes : List NodeId) : Option Graph :=
  let (conjId, g) := g.newNode (.conj { nodes := nodes })
  g.addConjEdges conjId nodes

/-- `Graph::get_return_node(node_id)`. -/
def Graph.getReturnNode (g : Graph) (nodeId : NodeId) : Option NodeId :=
  (alGet g.nodes nodeId).bind fun node =>
    match node.content with
    | .funC x => some x.returnValue
    | .localCall x => some x.returnValue
    | .remoteCall x => some x.returnValue
    | _ => none

/-- `Graph::get_args(node_id)`: note that only `Fun` content is matched; every
other content (including `LocalCall` and `RemoteCall`) falls through to
`None`. -/
def Graph.getArgs (g : Graph) (nodeId : NodeId) : Option (List NodeId) :=
  (alGet g.nodes nodeId).bind fun node =>
    match node.content with
    | .funC x => some x.args
    | _ => none

end graph

namespace graph

/-- One application of a public mutating `Graph` operation that completed
without panicking. -/
inductive Step : Graph → Graph → Prop where
  | addEdge (g : Graph) (kind : EdgeKind) (p c : NodeId) (eid : EdgeId) (g' : Graph)
      (h : g.addEdge kind p c = some (eid, g')) : Step g g'
  | newConj (g : Graph) (ns : List NodeId) (g' : Graph)
      (h : g.newConj ns = some g') : Step g g'
  | newExternalFunNode (g : Graph) (arity : Nat) :
      Step g (g.newExternalFunNode arity).2
  | newLocalCallNode (g : Graph) (f : NodeId) (args : List NodeId) :
      Step g (g.newLocalCallNode f args).2
  | newRemoteCallNode (g : Graph) (m f : NodeId) (args : List NodeId) :
      Step g (g.newRemoteCallNode m f args).2
  | newValueNode (g : Graph) (v : Val) :
      Step g (g.newValueNode v).2

/-- Graphs reachable from `Graph::new()` by sequences of public operations. -/
inductive Reachable : Graph → Prop where
  | new : Reachable Graph.new
  | step (g g' : Graph) : Reachable g → Step g g' → Reachable g'

/-- The return-value node id stored in a content, when the content carries one
(`Fun`, `LocalCall` and `RemoteCall` do; `Val` and `Conj` do not). -/
def Content.returnField : Content → Option NodeId
  | .funC x => some x.returnValue
  | .localCall x => some x.returnValue
  | .remoteCall x => some x.returnValue
  | _ => none

/-- A content of kind `Fun`, `LocalCall` or `RemoteCall`. -/
def Content.isCallLike : Content → Prop
  | .funC _ => True
  | .localCall _ => True
  | .remoteCall _ => True
  | _ => False

/-- Invariant (G2) of the specification: every node's stored edge-id set
equals exactly the set of edge ids whose edge has that node as producer or
as consumer. -/
def edgeSetsExact (g : Graph) : Prop :=
  ∀ nid n, alGet g.nodes nid = some n →
    ∀ eid, eid ∈ n.edges ↔
      ∃ e, alGet g.edges eid = some e ∧ (e.producer = nid ∨ e.consumer = nid)

/-- The combined structural invariant maintained by every public operation:
id bounds (G4), live endpoints (G1), exact edge sets (G2), and live `Val`
return nodes for call-like contents (G3/spec item 6). -/
structure Inv (g : Graph) : Prop where
  nodeKeyLt : ∀ nid n, alGet g.nodes nid = some n → nid < g.nextNodeId
  edgeKeyLt : ∀ eid e, alGet g.edges eid = some e → eid < g.nextEdgeId
  endpointsLive : ∀ eid e, alGet g.edges eid = some e →
      (alGet g.nodes e.producer).isSome ∧ (alGet g.nodes e.consumer).isSome
  edgeSets : edgeSetsExact g
  returnsVal : ∀ nid n rv, alGet g.nodes nid = some n →
      n.content.returnField = some rv →
      ∃ rn, alGet g.nodes rv = some rn ∧ ∃ v, rn.content = Content.val v

/-- Existing edges are preserved (graphs only grow). -/
def edgesPreserved (g g' : Graph) : Prop :=
  ∀ eid e, alGet g.edges eid = some e → alGet g'.edges eid = some e

/-- The contents of the node arena are untouched at every id (an operation may
only extend the arena with fresh ids or update the `edges` field of existing
nodes). -/
def contentsSame (g g' : Graph) : Prop :=
  ∀ nid, (alGet g'.nodes nid).map Node.content = (alGet g.nodes nid).map Node.content

/-- Growth relation between a graph and a successor obtained by completing
part of an operation: edges preserved, and every old node still present with
the same content. -/
def Mono (g g' : Graph) : Prop :=
  edgesPreserved g g' ∧
  (∀ nid n, alGet g.nodes nid = some n →
    ∃ n', alGet g'.nodes nid = some n' ∧ n'.content = n.content)

/-- An edge of kind `k` from producer `p` to consumer `c` exists in `g`. -/
def edgeIn (g : Graph) (k : EdgeKind) (p c : NodeId) : Prop :=
  ∃ eid e, alGet g.edges eid = some e ∧ e.kind = k ∧ e.producer = p ∧ e.consumer = c

/-- A two-value-node graph with one `Match` edge, used as a concrete witness. -/
def c4Graph1 : Graph := (Graph.new.newValueNode Val.new).2

def c4Graph2 : Graph := (c4Graph1.newValueNode Val.newVar).2

def c4Graph : Graph := ((c4Graph2.addEdge .matchK 0 1).getD (0, Graph.new)).2

/-- A value node plus a local-call node on it, used as a concrete witness. -/
def c5Graph0 : Graph := (Graph.new.newValueNode Val.new).2

def c5Graph : Graph := (c5Graph0.newLocalCallNode 0 [0]).2

/-- A value node plus a local-call node on it, used for the `get_args`
counterexample. -/
def c7Graph0 : Graph := (Graph.new.newValueNode Val.new).2

def c7Graph : Graph := (c7Graph0.newLocalCallNode 0 [0]).2

end graph

namespace ast

/-- The declaration-AST type language (`erl_ast::ast::ty::Type`, the input of
`FromAst for ty::Type` in `src/ast.rs`), shaped by the fields that
`from_ast` reads.  `BigInt` literals are `Int`; the `BitString` payload is
never read (the arm panics), so it carries no fields here. -/
inductive AstTy where
  | atomA (value : String)
  | integerA (value : Int)
  | varA (name : String)
  | annotatedA (name : String) (t : AstTy)
  | unaryOpA (operator : String) (operand : AstTy)
  | binaryOpA (operator : String) (leftOperand : AstTy) (rightOperand : AstTy)
  | bitStringA
  | nilA
  | anyFunA
  | functionA (args : List AstTy) (returnType : AstTy)
      (constraints : List (String × AstTy))
  | rangeA (low : AstTy) (high : AstTy)
  | mapA (pairs : List (AstTy × AstTy))
  | builtInA (name : String) (args : List AstTy)
  | recordA (name : String) (fields : List (String × AstTy))
  | remoteA (moduleName : String) (functionName : String) (args : List AstTy)
  | anyTupleA
  | tupleA (elements : List AstTy)
  | unionA (types : List AstTy)
  | userA (name : String) (args : List AstTy)

/-- The distinct panic flavours of `from_ast`.  For this lowering function the
claim under test concerns what a failed lowering carries, so panics are
modelled as `Except.error` of the panic's content instead of a bare `none`:
`fragment t` is a fragment-printing panic whose message is the debug form
of the offending AST fragment (the source formats the fragment with the
Debug formatter); `assertFailed` is a failed `assert!`/`assert_eq!`;
`unwrapNone` is `Option::unwrap` on `None`.  All three abort the process —
none of them returns a value to the caller. -/
inductive PanicMsg where
  | fragment (t : AstTy)
  | assertFailed
  | unwrapNone

/-- `to_i64` of a `BigInt`: succeeds exactly when the value fits a signed
64-bit integer. -/
def toI64 (v : Int) : Option Int :=
  if -(2 ^ 63) ≤ v ∧ v < 2 ^ 63 then some v else none

mutual
/-- `src/ast.rs` `impl FromAst for ty::Type`: the AST-to-lattice lowering.
Every arm mirrors the source; the `UnaryOp` negation is exact `Int`
negation (the `i64` overflow at `i64::MIN`, a debug-build panic in Rust, is
not modelled; no claim depends on it). -/
def fromAst : AstTy → Except PanicMsg ty.Ty
  | .atomA v => .ok (ty.atom v)
  | .integerA v =>
    match toI64 v with
    | some v' => .ok (.integerTy (ty.integer.value v'))
    | none => .ok (.integerTy ty.integer)
  | .varA name => .ok (.varTy name none)
  | .annotatedA name t => do
    let t' ← fromAst t
    .ok (.varTy name (some t'))
  | .unaryOpA operator operand =>
    if operator = "'-'" then
      match fromAst operand with
      | .ok (.integerTy it) =>
        match it.getSingleValue with
        | some v => .ok (.integerTy (ty.integer.value (-v)))
        | none => .error .unwrapNone
      | .ok _ => .error (.fragment operand)
      | .error e => .error e
    else
      .error .assertFailed
  | .binaryOpA operator l r => .error (.fragment (.binaryOpA operator l r))
  | .bitStringA => .error (.fragment .bitStringA)
  | .nilA => .ok .nilTy
  | .anyFunA => .ok (.funTy [])
  | .functionA args returnType constraints =>
    if constraints.isEmpty then do
      let args' ← fromAstList args
      let ret' ← fromAst returnType
      .ok (.funTy [(some args', ret')])
    else
      .error .assertFailed
  | .rangeA low high =>
    match fromAst low with
    | .ok (.integerTy lowI) =>
      match (if lowI.isAny then .ok ty.integer else
          match lowI.getSingleValue with
          | some v => .ok (ty.integer.withMin v)
          | none => .error PanicMsg.unwrapNone : Except PanicMsg ty.IntegerType) with
      | .error e => .error e
      | .ok r1 =>
        match fromAst high with
        | .ok (.integerTy highI) =>
          if highI.isAny then .ok (.integerTy r1) else
            match highI.getSingleValue with
            | some v => .ok (.integerTy (r1.withMax v))
            | none => .error .unwrapNone
        | .ok _ => .error (.fragment high)
        | .error e => .error e
    | .ok _ => .error (.fragment low)
    | .error e => .error e
  | .mapA pairs => do
    let pairs' ← fromAstPairs pairs
    .ok (.mapTy pairs')
  | .builtInA name args => do
    let args' ← fromAstList args
    .ok (ty.localFn name args')
  | .recordA name fields => do
    let fields' ← fromAstFields fields
    .ok (.recordTy name fields')
  | .remoteA m f args => do
    let args' ← fromAstList args
    .ok (.remoteTy m f args')
  | .anyTupleA => .ok (.tupleTy none)
  | .tupleA elements => do
    let elements' ← fromAstList elements
    .ok (.tupleTy (some elements'))
  | .unionA types => do
    let types' ← fromAstList types
    .ok (.unionTy types')
  | .userA name args => do
    let args' ← fromAstList args
    .ok (ty.localFn name args')
termination_by structural t => t

/-- Lowering of an ordered argument/element list (`iter().map(from_ast)`). -/
def fromAstList : List AstTy → Except PanicMsg (List ty.Ty)
  | [] => .ok []
  | t :: rest => do
    let t' ← fromAst t
    let rest' ← fromAstList rest
    .ok (t' :: rest')
termination_by structural ts => ts

/-- Lowering of map pairs, preserving order. -/
def fromAstPairs : List (AstTy × AstTy) → Except PanicMsg (List (ty.Ty × ty.Ty))
  | [] => .ok []
  | (k, v) :: rest => do
    let k' ← fromAst k
    let v' ← fromAst v
    let rest' ← fromAstPairs rest
    .ok ((k', v') :: rest')
termination_by structural ps => ps

/-- Lowering of record fields, preserving order. -/
def fromAstFields : List (String × AstTy) → Except PanicMsg (List (String × ty.Ty))
  | [] => .ok []
  | (name, v) :: rest => do
    let v' ← fromAst v
    let rest' ← fromAstFields rest
    .ok ((name, v') :: rest')
termination_by structural fs => fs
end

end ast

namespace meta_rs

open graph

/-- `erl_ast` pattern AST (`ast::pat::Pattern`), shaped by the fields
`GraphBuilder::parse_pattern` reads; `otherP` stands for every remaining
variant, all of which hit the catch-all `panic!`.  A record-field name is
`Option String` (`f.name.clone().expect(..)` panics on `None`). -/
inductive Pattern where
  | atomP (value : String)
  | integerP (value : Int)
  | nilP
  | varP (name : String)
  | matchP (left : Pattern) (right : Pattern)
  | consP (head : Pattern) (tail : Pattern)
  | recordP (name : String) (fields : List (Option String × Pattern))
  | tupleP (elements : List Pattern)
  | otherP

/-- `erl_ast` guard AST (`ast::guard::Guard`), shaped by
`GraphBuilder::parse_guard`; `otherG` is the catch-all `panic!` case. -/
inductive Guard where
  | atomG (value : String)
  | integerG (value : Int)
  | nilG
  | varG (name : String)
  | binaryOpG (operator : String) (leftOperand : Guard) (rightOperand : Guard)
  | localCallG (function : Guard) (args : List Guard)
  | otherG

/-- One guard disjunct: a conjunction of guard tests (`g.and_guards`). -/
structure OrGuard where
  andGuards : List Guard

mutual
/-- `erl_ast` expression AST (`ast::expr::Expression`), shaped by
`GraphBuilder::parse_expr`; `otherE` is the catch-all `panic!` case. -/
inductive Expression where
  | atomE (value : String)
  | integerE (value : Int)
  | nilE
  | varE (name : String)
  | matchE (left : Pattern) (right : Expression)
  | caseE (expr : Expression) (clauses : List Clause)
  | tryE (body : List Expression) (caseClauses : List Clause)
      (catchClauses : List Clause) (after : List Expression)
  | ifE (clauses : List Clause)
  | recordE (name : String) (fields : List (Option String × Expression))
  | consE (head : Expression) (tail : Expression)
  | tupleE (elements : List Expression)
  | binaryOpE (operator : String) (leftOperand : Expression) (rightOperand : Expression)
  | localCallE (function : Expression) (args : List Expression)
  | remoteCallE (moduleExpr : Expression) (function : Expression) (args : List Expression)
  | anonymousFunE
  | otherE

/-- `erl_ast` clause AST (`ast::clause::Clause`): patterns, guard disjuncts,
body. -/
inductive Clause where
  | mk (patterns : List Pattern) (guards : List OrGuard) (body : List Expression)
end

/-- The pattern list of a clause. -/
def Clause.patternsOf : Clause → List Pattern
  | .mk ps _ _ => ps

/-- The body of a clause. -/
def Clause.bodyOf : Clause → List Expression
  | .mk _ _ b => b

/-- `erl_ast` function declaration form (`ast::form::FunDecl`). -/
structure FunDecl where
  name : String
  clauses : List Clause

/-- `src/meta.rs` `GraphBuilder`: the graph under construction plus the
lexical binding-scope stack.  The Rust `Vec` pushes scopes at the end and
searches in reverse; here the head of `bindings` is the innermost scope. -/
structure GraphBuilder where
  graph : Graph
  bindings : List (List (String × NodeId))

/-- `GraphBuilder::new()`. -/
def GraphBuilder.new : GraphBuilder :=
  { graph := Graph.new, bindings := [] }

/-- `GraphBuilder::scope_in`. -/
def GraphBuilder.scopeIn (b : GraphBuilder) : GraphBuilder :=
  { b with bindings := [] :: b.bindings }

/-- `GraphBuilder::scope_out`: pops the innermost scope
(`self.bindings.pop().unwrap()` panics on an empty stack). -/
def GraphBuilder.scopeOut (b : GraphBuilder) : Option GraphBuilder :=
  match b.bindings with
  | [] => none
  | _ :: rest => some { b with bindings := rest }

/-- The frame search of `find_binding`: innermost scope first. -/
def findInFrames : List (List (String × NodeId)) → String → Option NodeId
  | [], _ => none
  | f :: rest, name =>
    match alGet f name with
    | some id => some id
    | none => findInFrames rest name

/-- `GraphBuilder::find_binding`. -/
def GraphBuilder.findBinding (b : GraphBuilder) (name : String) : Option NodeId :=
  findInFrames b.bindings name

/-- `GraphBuilder::intern`: return the existing binding, or create a fresh
`Val::new` node and bind it in the innermost scope
(`last_mut().unwrap()` panics when no scope is open). -/
def GraphBuilder.intern (b : GraphBuilder) (name : String) : Option (NodeId × GraphBuilder) :=
  match b.findBinding name with
  | some id => some (id, b)
  | none =>
    match b.bindings with
    | [] => none
    | frame :: rest =>
      let (id, g) := b.graph.newValueNode Val.new
      some (id, { graph := g, bindings := alInsert frame name id :: rest })

mutual
/-- `GraphBuilder::parse_guard`. -/
def parseGuard : Guard → GraphBuilder → Option (NodeId × GraphBuilder)
  | .atomG x, b =>
    let (id, g) := b.graph.newValueNode (Val.withType (ty.atom x))
    some (id, { b with graph := g })
  | .integerG x, b =>
    let value :=
      match ast.toI64 x with
      | some v => Val.withType (.integerTy (ty.integer.value v))
      | none => Val.withType (.integerTy ty.integer)
    let (id, g) := b.graph.newValueNode value
    some (id, { b with graph := g })
  | .nilG, b =>
    let (id, g) := b.graph.newValueNode (Val.withType .nilTy)
    some (id, { b with graph := g })
  | .varG x, b =>
    match b.findBinding x with
    | some id => some (id, b)
    | none => none
  | .binaryOpG op l r, b => do
    let (nameId, g) := b.graph.newValueNode (Val.withType (ty.atom ("__op_" ++ op)))
    let b := { b with graph := g }
    let (a0, b) ← parseGuard l b
    let (a1, b) ← parseGuard r b
    let (nodeId, g) := b.graph.newLocalCallNode nameId [a0, a1]
    let b := { b with graph := g }
    let rid ← b.graph.getReturnNode nodeId
    some (rid, b)
  | .localCallG f args, b => do
    let (funId, b) ← parseGuard f b
    let (argIds, b) ← parseGuardList args b
    let (nodeId, g) := b.graph.newLocalCallNode funId argIds
    let b := { b with graph := g }
    let rid ← b.graph.getReturnNode nodeId
    some (rid, b)
  | .otherG, _ => none
termination_by structural g _ => g

/-- Ordered guard-list parsing (used both for call arguments and for the
conjunct collection of `parse_and_guards`). -/
def parseGuardList : List Guard → GraphBuilder → Option (List NodeId × GraphBuilder)
  | [], b => some ([], b)
  | g :: gs, b => do
    let (id, b) ← parseGuard g b
    let (ids, b) ← parseGuardList gs b
    some (id :: ids, b)
termination_by structural gs _ => gs
end

/-- `GraphBuilder::parse_and_guards`: parse each conjunct, then fuse with
`new_conj`. -/
def parseAndGuards (guards : List Guard) (b : GraphBuilder) : Option GraphBuilder := do
  let (conjs, b) ← parseGuardList guards b
  let g ← b.graph.newConj conjs
  some { b with graph := g }

/-- The guard loop of `parse_clause`: one `parse_and_guards` per disjunct. -/
def parseGuardSeq : List OrGuard → GraphBuilder → Option GraphBuilder
  | [], b => some b
  | og :: rest, b => do
    let b ← parseAndGuards og.andGuards b
    parseGuardSeq rest b

mutual
/-- `GraphBuilder::parse_pattern` (returns the consumer node). -/
def parsePattern : Pattern → GraphBuilder → Option (NodeId × GraphBuilder)
  | .atomP x, b =>
    let (id, g) := b.graph.newValueNode (Val.withType (ty.atom x))
    some (id, { b with graph := g })
  | .integerP x, b =>
    let value :=
      match ast.toI64 x with
      | some v => Val.withType (.integerTy (ty.integer.value v))
      | none => Val.withType (.integerTy ty.integer)
    let (id, g) := b.graph.newValueNode value
    some (id, { b with graph := g })
  | .nilP, b =>
    let (id, g) := b.graph.newValueNode (Val.withType .nilTy)
    some (id, { b with graph := g })
  | .varP x, b => b.intern x
  | .matchP left right, b => do
    let (leftId, b) ← parsePattern left b
    let (rightId, b) ← parsePattern right b
    let (_, g) ← b.graph.addEdge .matchK rightId leftId
    some (leftId, { b with graph := g })
  | .consP head tail, b => do
    let (nameId, g) := b.graph.newValueNode (Val.withType (ty.atom "__cons"))
    let b := { b with graph := g }
    let (a0, b) ← parsePattern head b
    let (a1, b) ← parsePattern tail b
    let (nodeId, g) := b.graph.newLocalCallNode nameId [a0, a1]
    let b := { b with graph := g }
    let rid ← b.graph.getReturnNode nodeId
    some (rid, b)
  | .recordP name fields, b => do
    let (nameId, g) := b.graph.newValueNode (Val.withType (ty.atom ("__record_" ++ name)))
    let b := { b with graph := g }
    let (argIds, b) ← parsePatternFields name fields b
    let (nodeId, g) := b.graph.newLocalCallNode nameId argIds
    let b := { b with graph := g }
    let rid ← b.graph.getReturnNode nodeId
    some (rid, b)
  | .tupleP elements, b => do
    let (nameId, g) := b.graph.newValueNode (Val.withType (ty.atom "__tuple"))
    let b := { b with graph := g }
    let (argIds, b) ← parsePatternList elements b
    let (nodeId, g) := b.graph.newLocalCallNode nameId argIds
    let b := { b with graph := g }
    let rid ← b.graph.getReturnNode nodeId
    some (rid, b)
  | .otherP, _ => none
termination_by structural p _ => p

/-- Ordered pattern-list parsing (tuple elements). -/
def parsePatternList : List Pattern → GraphBuilder → Option (List NodeId × GraphBuilder)
  | [], b => some ([], b)
  | p :: ps, b => do
    let (id, b) ← parsePattern p b
    let (ids, b) ← parsePatternList ps b
    some (id :: ids, b)
termination_by structural ps _ => ps

/-- Record-field parsing in patterns: each field becomes the node id of a
`LocalCall` to `__field_<record>_<field>` over the parsed field value; a
`None` field name is `expect("Not Implemented")` (panic). -/
def parsePatternFields : String → List (Option String × Pattern) → GraphBuilder →
    Option (List NodeId × GraphBuilder)
  | _, [], b => some ([], b)
  | recName, (fname?, fval) :: rest, b => do
    let fname ← fname?
    let (fnameId, g) := b.graph.newValueNode
      (Val.withType (ty.atom ("__field_" ++ recName ++ "_" ++ fname)))
    let b := { b with graph := g }
    let (argId, b) ← parsePattern fval b
    let (fieldId, g) := b.graph.newLocalCallNode fnameId [argId]
    let b := { b with graph := g }
    let (ids, b) ← parsePatternFields recName rest b
    some (fieldId :: ids, b)
termination_by structural _ fs _ => fs
end

/-- The pattern loop of `parse_clause`: for each pattern (in order), parse it
and add a `Match` edge from the corresponding argument node (producer) to
the pattern node (consumer).  Indexing `args[i]` out of range panics; the
caller's arity check makes the lists equal in length. -/
def parseClausePatterns : List NodeId → List Pattern → GraphBuilder → Option GraphBuilder
  | _, [], b => some b
  | [], _ :: _, _ => none
  | a :: rest, p :: ps, b => do
    let (pat, b) ← parsePattern p b
    let (_, g) ← b.graph.addEdge .matchK a pat
    parseClausePatterns rest ps { b with graph := g }

mutual
/-- `GraphBuilder::parse_expr` (returns the producer node). -/
def parseExpr : Expression → GraphBuilder → Option (NodeId × GraphBuilder)
  | .atomE x, b =>
    let (id, g) := b.graph.newValueNode (Val.withType (ty.atom x))
    some (id, { b with graph := g })
  | .integerE x, b =>
    let value :=
      match ast.toI64 x with
      | some v => Val.withType (.integerTy (ty.integer.value v))
      | none => Val.withType (.integerTy ty.integer)
    let (id, g) := b.graph.newValueNode value
    some (id, { b with graph := g })
  | .nilE, b =>
    let (id, g) := b.graph.newValueNode (Val.withType .nilTy)
    some (id, { b with graph := g })
  | .varE x, b =>
    match b.findBinding x with
    | some id => some (id, b)
    | none => none
  | .matchE left right, b => do
    let (leftId, b) ← parsePattern left b
    let (rightId, b) ← parseExpr right b
    let (_, g) ← b.graph.addEdge .matchK rightId leftId
    some (leftId, { b with graph := g })
  | .caseE expr clauses, b => do
    let (resultValue, g) := b.graph.newValueNode Val.newVar
    let b := { b with graph := g }
    let (exprValue, b) ← parseExpr expr b
    let b ← parseClauseList [exprValue] resultValue clauses b
    some (resultValue, b)
  | .tryE body caseClauses catchClauses afterBody, b => do
    let (resultValue, g) := b.graph.newValueNode Val.newVar
    let b := { b with graph := g }
    let (bodyValue, b) ← parseBody body b
    let b ← parseClauseList [bodyValue] resultValue caseClauses b
    let (catchValue, g) := b.graph.newValueNode Val.newAny
    let b := { b with graph := g }
    let b ← parseClauseList [catchValue] resultValue catchClauses b
    if afterBody.isEmpty then
      some (resultValue, b)
    else do
      let (_, b) ← parseBody afterBody b
      some (resultValue, b)
  | .ifE clauses, b => do
    let (resultValue, g) := b.graph.newValueNode Val.newVar
    let b := { b with graph := g }
    let b ← parseClauseList [] resultValue clauses b
    some (resultValue, b)
  | .recordE name fields, b => do
    let (nameId, g) := b.graph.newValueNode (Val.withType (ty.atom ("__record_" ++ name)))
    let b := { b with graph := g }
    let (argIds, b) ← parseExprFields name fields b
    let (nodeId, g) := b.graph.newLocalCallNode nameId argIds
    let b := { b with graph := g }
    let rid ← b.graph.getReturnNode nodeId
    some (rid, b)
  | .consE head tail, b => do
    let (nameId, g) := b.graph.newValueNode (Val.withType (ty.atom "__cons"))
    let b := { b with graph := g }
    let (a0, b) ← parseExpr head b
    let (a1, b) ← parseExpr tail b
    let (nodeId, g) := b.graph.newLocalCallNode nameId [a0, a1]
    let b := { b with graph := g }
    let rid ← b.graph.getReturnNode nodeId
    some (rid, b)
  | .tupleE elements, b => do
    let (nameId, g) := b.graph.newValueNode (Val.withType (ty.atom "__tuple"))
    let b := { b with graph := g }
    let (argIds, b) ← parseExprList elements b
    let (nodeId, g) := b.graph.newLocalCallNode nameId argIds
    let b := { b with graph := g }
    let rid ← b.graph.getReturnNode nodeId
    some (rid, b)
  | .binaryOpE op l r, b => do
    let (nameId, g) := b.graph.newValueNode (Val.withType (ty.atom ("__op_" ++ op)))
    let b := { b with graph := g }
    let (a0, b) ← parseExpr l b
    let (a1, b) ← parseExpr r b
    let (nodeId, g) := b.graph.newLocalCallNode nameId [a0, a1]
    let b := { b with graph := g }
    let rid ← b.graph.getReturnNode nodeId
    some (rid, b)
  | .localCallE f args, b => do
    let (funId, b) ← parseExpr f b
    let (argIds, b) ← parseExprList args b
    let (nodeId, g) := b.graph.newLocalCallNode funId argIds
    let b := { b with graph := g }
    let rid ← b.graph.getReturnNode nodeId
    some (rid, b)
  | .remoteCallE m f args, b => do
    let (moduleId, b) ← parseExpr m b
    let (funId, b) ← parseExpr f b
    let (argIds, b) ← parseExprList args b
    let (nodeId, g) := b.graph.newRemoteCallNode moduleId funId argIds
    let b := { b with graph := g }
    let rid ← b.graph.getReturnNode nodeId
    some (rid, b)
  | .anonymousFunE, b =>
    let (id, g) := b.graph.newValueNode Val.newAny
    some (id, { b with graph := g })
  | .otherE, _ => none
termination_by structural e _ => e

/-- Ordered expression-list parsing (call arguments, tuple elements). -/
def parseExprList : List Expression → GraphBuilder → Option (List NodeId × GraphBuilder)
  | [], b => some ([], b)
  | e :: es, b => do
    let (id, b) ← parseExpr e b
    let (ids, b) ← parseExprList es b
    some (id :: ids, b)
termination_by structural es _ => es

/-- Record-field parsing in expressions (as in patterns, with expression
values). -/
def parseExprFields : String → List (Option String × Expression) → GraphBuilder →
    Option (List NodeId × GraphBuilder)
  | _, [], b => some ([], b)
  | recName, (fname?, fval) :: rest, b => do
    let fname ← fname?
    let (fnameId, g) := b.graph.newValueNode
      (Val.withType (ty.atom ("__field_" ++ recName ++ "_" ++ fname)))
    let b := { b with graph := g }
    let (argId, b) ← parseExpr fval b
    let (fieldId, g) := b.graph.newLocalCallNode fnameId [argId]
    let b := { b with graph := g }
    let (ids, b) ← parseExprFields recName rest b
    some (fieldId :: ids, b)
termination_by structural _ fs _ => fs

/-- `GraphBuilder::parse_body`: parse the expressions in order and return the
last one's node (`return_value.unwrap()` panics on an empty body). -/
def parseBody : List Expression → GraphBuilder → Option (NodeId × GraphBuilder)
  | [], _ => none
  | [e], b => parseExpr e b
  | e :: e2 :: rest, b => do
    let (_, b) ← parseExpr e b
    parseBody (e2 :: rest) b
termination_by structural es _ => es

/-- `GraphBuilder::parse_clause`: arity check (mismatch panics), scope in,
pattern `Match` edges, guards, body, `Return` edge from the clause result to
the supplied result node, scope out. -/
def parseClause : List NodeId → NodeId → Clause → GraphBuilder → Option GraphBuilder
  | args, result, .mk patterns guards body, b =>
    if args.length = patterns.length then do
      let b := b.scopeIn
      let b ← parseClausePatterns args patterns b
      let b ← parseGuardSeq guards b
      let (clauseResult, b) ← parseBody body b
      let (_, g) ← b.graph.addEdge .ret clauseResult result
      let b := { b with graph := g }
      b.scopeOut
    else
      none
termination_by structural _ _ c _ => c

/-- The clause loops of `build`, `case`, `try` and `if`: one `parse_clause`
per clause against fixed argument nodes and result node. -/
def parseClauseList : List NodeId → NodeId → List Clause → GraphBuilder → Option GraphBuilder
  | _, _, [], b => some b
  | args, result, c :: cs, b => do
    let b ← parseClause args result c b
    parseClauseList args result cs b
termination_by structural _ _ cs _ => cs
end

/-- `GraphBuilder::build`: take the arity from the first clause's pattern
count (`decl.clauses[0]` panics on an empty clause list; `as Arity` truncates
to `u8`), create the external fun node, fetch its argument and return nodes,
and run every clause against them.  The debug dot-file dump
(`fs::File::create` + `write_as_dot`) is I/O only and does not touch the
graph; it is omitted. -/
def GraphBuilder.build (b : GraphBuilder) (decl : FunDecl) : Option Graph :=
  match decl.clauses with
  | [] => none
  | c0 :: _ => do
    let arity := (Clause.patternsOf c0).length % 256
    let (funNodeId, g) := b.graph.newExternalFunNode arity
    let b := { b with graph := g }
    let args ← b.graph.getArgs funNodeId
    let funReturn ← b.graph.getReturnNode funNodeId
    let b ← parseClauseList args funReturn decl.clauses b
    some b.graph

/-- `Function::from_ast` composed with `GraphBuilder::new().build(decl)`. -/
def buildGraph (decl : FunDecl) : Option Graph :=
  GraphBuilder.new.build decl

/-- The parse functions only grow the graph and keep the structural
invariant: `b'` extends `b`. -/
def BOk (b b' : GraphBuilder) : Prop :=
  Inv b'.graph ∧ Mono b.graph b'.graph
/-- Spec scenario S4: the declaration `f(X) -> X.`. -/
def s4decl : FunDecl :=
  { name := "f", clauses := [Clause.mk [Pattern.varP "X"] [] [Expression.varE "X"]] }

/-- The graph `GraphBuilder::build` produces for `f(X) -> X.`. -/
def s4Graph : Graph := (buildGraph s4decl).getD Graph.new

end meta_rs

theorem alGet_nil {κ α : Type} [DecidableEq κ] (k : κ) :
    alGet ([] : List (κ × α)) k = none := rfl

theorem alGet_cons {κ α : Type} [DecidableEq κ] (k' : κ) (v' : α) (rest : List (κ × α)) (k : κ) :
    alGet ((k', v') :: rest) k = if k' = k then some v' else alGet rest k := by
  by_cases h : k' = k <;> simp [alGet, List.find?, h]

theorem alGet_alInsert {κ α : Type} [DecidableEq κ] (l : List (κ × α)) (k : κ) (v : α) (k' : κ) :
    alGet (alInsert l k v) k' = if k = k' then some v else alGet l k' := by
  induction l with
  | nil =>
    by_cases h : k = k' <;> simp [alInsert, alGet_cons, alGet_nil, h]
  | cons hd tl ih =>
    obtain ⟨k₀, v₀⟩ := hd
    by_cases h₀ : k₀ = k
    · subst h₀
      by_cases h : k₀ = k'
      · subst h
        simp [alInsert, alGet_cons]
      · simp [alInsert, alGet_cons, h]
    · by_cases h₁ : k₀ = k'
      · subst h₁
        have hkk : ¬k = k₀ := fun hh => h₀ hh.symm
        simp [alInsert, h₀, alGet_cons, hkk]
      · by_cases h : k = k'
        · subst h
          simp [alInsert, h₀, alGet_cons, h₁, ih]
        · simp [alInsert, h₀, alGet_cons, h₁, ih, h]

theorem alGet_alInsert_self {κ α : Type} [DecidableEq κ] (l : List (κ × α)) (k : κ) (v : α) :
    alGet (alInsert l k v) k = some v := by
  rw [alGet_alInsert, if_pos rfl]

theorem alGet_alInsert_ne {κ α : Type} [DecidableEq κ] (l : List (κ × α)) (k : κ) (v : α)
    (k' : κ) (h : k ≠ k') : alGet (alInsert l k v) k' = alGet l k' := by
  rw [alGet_alInsert, if_neg h]

theorem mem_hsInsert (s : List Nat) (x y : Nat) :
    y ∈ hsInsert s x ↔ y = x ∨ y ∈ s := by
  by_cases h : x ∈ s
  · simp only [hsInsert, if_pos h]
    constructor
    · exact Or.inr
    · rintro (rfl | hy)
      · exact h
      · exact hy
  · simp [hsInsert, if_neg h]

namespace graph

theorem Mono.refl (g : Graph) : Mono g g :=
  ⟨fun _ _ h => h, fun _ n h => ⟨n, h, rfl⟩⟩

theorem mono_trans {g₁ g₂ g₃ : Graph} (h₁ : Mono g₁ g₂) (h₂ : Mono g₂ g₃) :
    Mono g₁ g₃ := by
  refine ⟨fun eid e he => h₂.1 eid e (h₁.1 eid e he), fun nid n hn => ?_⟩
  obtain ⟨n', hn', hc'⟩ := h₁.2 nid n hn
  obtain ⟨n'', hn'', hc''⟩ := h₂.2 nid n' hn'
  exact ⟨n'', hn'', hc''.trans hc'⟩

theorem inv_new : Inv Graph.new := by
  refine ⟨?_, ?_, ?_, ?_, ?_⟩
  · intro _ _ h
    simp [Graph.new, alGet_nil] at h
  · intro _ _ h
    simp [Graph.new, alGet_nil] at h
  · intro _ _ h
    simp [Graph.new, alGet_nil] at h
  · intro _ _ h
    simp [Graph.new, alGet_nil] at h
  · intro _ _ _ h
    simp [Graph.new, alGet_nil] at h

theorem fresh_node_none (g : Graph) (hInv : Inv g) :
    alGet g.nodes g.nextNodeId = none := by
  cases h : alGet g.nodes g.nextNodeId with
  | none => rfl
  | some n => exact absurd (hInv.nodeKeyLt _ _ h) (lt_irrefl _)

theorem fresh_edge_none (g : Graph) (hInv : Inv g) :
    alGet g.edges g.nextEdgeId = none := by
  cases h : alGet g.edges g.nextEdgeId with
  | none => rfl
  | some e => exact absurd (hInv.edgeKeyLt _ _ h) (lt_irrefl _)

theorem newNode_fst (g : Graph) (c : Content) : (g.newNode c).1 = g.nextNodeId := rfl

theorem newNode_edges (g : Graph) (c : Content) : (g.newNode c).2.edges = g.edges := rfl

theorem newNode_nextNodeId (g : Graph) (c : Content) :
    (g.newNode c).2.nextNodeId = g.nextNodeId + 1 := rfl

theorem newNode_nextEdgeId (g : Graph) (c : Content) :
    (g.newNode c).2.nextEdgeId = g.nextEdgeId := rfl

theorem newNode_nodes_get (g : Graph) (c : Content) (nid : NodeId) :
    alGet (g.newNode c).2.nodes nid =
      if g.nextNodeId = nid then some (Node.new g.nextNodeId c) else alGet g.nodes nid := by
  show alGet (alInsert g.nodes g.nextNodeId (Node.new g.nextNodeId c)) nid = _
  exact alGet_alInsert g.nodes g.nextNodeId (Node.new g.nextNodeId c) nid

theorem mono_newNode (g : Graph) (c : Content) (hInv : Inv g) :
    Mono g (g.newNode c).2 := by
  refine ⟨fun eid e he => by rwa [newNode_edges], fun nid n hn => ?_⟩
  refine ⟨n, ?_, rfl⟩
  rw [newNode_nodes_get]
  rw [if_neg]
  · exact hn
  · intro hEq
    rw [← hEq] at hn
    exact absurd (hInv.nodeKeyLt _ _ hn) (lt_irrefl _)

theorem inv_newNode (g : Graph) (c : Content) (hInv : Inv g)
    (hret : ∀ rv, c.returnField = some rv →
      ∃ rn, alGet g.nodes rv = some rn ∧ ∃ v, rn.content = Content.val v) :
    Inv (g.newNode c).2 := by
  have hfresh := fresh_node_none g hInv
  constructor
  · intro nid n h
    rw [newNode_nodes_get] at h
    rw [newNode_nextNodeId]
    split_ifs at h with hEq
    · subst hEq
      exact Nat.lt_succ_self _
    · exact Nat.lt_succ_of_lt (hInv.nodeKeyLt _ _ h)
  · intro eid e h
    rw [newNode_edges] at h
    rw [newNode_nextEdgeId]
    exact hInv.edgeKeyLt _ _ h
  · intro eid e h
    rw [newNode_edges] at h
    obtain ⟨h1, h2⟩ := hInv.endpointsLive _ _ h
    constructor
    · rw [newNode_nodes_get]
      split_ifs with hEq
      · simp
      · exact h1
    · rw [newNode_nodes_get]
      split_ifs with hEq
      · simp
      · exact h2
  · intro nid n h eid
    rw [newNode_nodes_get] at h
    rw [newNode_edges]
    split_ifs at h with hEq
    · obtain rfl : Node.new g.nextNodeId c = n := by injection h
      subst hEq
      constructor
      · intro hmem
        exact absurd hmem (List.not_mem_nil _)
      · rintro ⟨e, he, hor⟩
        obtain ⟨h1, h2⟩ := hInv.endpointsLive _ _ he
        rcases hor with hp | hc
        · rw [hp, hfresh] at h1
          exact absurd h1 (by simp)
        · rw [hc, hfresh] at h2
          exact absurd h2 (by simp)
    · exact hInv.edgeSets _ _ h eid
  · intro nid n rv h hr
    rw [newNode_nodes_get] at h
    have step : ∀ rn, alGet g.nodes rv = some rn →
        alGet (g.newNode c).2.nodes rv = some rn := by
      intro rn hrn
      rw [newNode_nodes_get, if_neg]
      · exact hrn
      · intro hEq
        rw [hEq] at hfresh
        rw [hfresh] at hrn
        cases hrn
    split_ifs at h with hEq
    · obtain rfl : Node.new g.nextNodeId c = n := by injection h
      obtain ⟨rn, hrn, v, hv⟩ := hret rv hr
      exact ⟨rn, step rn hrn, v, hv⟩
    · obtain ⟨rn, hrn, v, hv⟩ := hInv.returnsVal _ _ _ h hr
      exact ⟨rn, step rn hrn, v, hv⟩

theorem newValueNode_get_self (g : Graph) (v : Val) :
    alGet (g.newValueNode v).2.nodes g.nextNodeId =
      some (Node.new g.nextNodeId (.val v)) := by
  show alGet (g.newNode (.val v)).2.nodes g.nextNodeId = _
  rw [newNode_nodes_get, if_pos rfl]

theorem inv_newValueNode (g : Graph) (v : Val) (hInv : Inv g) :
    Inv (g.newValueNode v).2 :=
  inv_newNode g (.val v) hInv (fun rv hr => by simp [Content.returnField] at hr)

theorem mono_newValueNode (g : Graph) (v : Val) (hInv : Inv g) :
    Mono g (g.newValueNode v).2 :=
  mono_newNode g (.val v) hInv

theorem contentsSame_isSome {g g' : Graph} (hcs : contentsSame g g') (nid : NodeId) :
    (alGet g'.nodes nid).isSome = (alGet g.nodes nid).isSome := by
  have hmap := hcs nid
  cases h1 : alGet g'.nodes nid <;> cases h2 : alGet g.nodes nid <;>
    rw [h1, h2] at hmap <;> simp_all

theorem contentsSame_content {g g' : Graph} (hcs : contentsSame g g') {nid : NodeId}
    {n' : Node} (h : alGet g'.nodes nid = some n') :
    ∃ n, alGet g.nodes nid = some n ∧ n'.content = n.content := by
  have hmap := hcs nid
  rw [h] at hmap
  cases h2 : alGet g.nodes nid with
  | none => rw [h2] at hmap; simp at hmap
  | some n =>
    rw [h2] at hmap
    simp only [Option.map_some'] at hmap
    exact ⟨n, rfl, by injection hmap⟩

theorem returnsVal_transfer {g g' : Graph} (hcs : contentsSame g g')
    (hrv : ∀ nid n rv, alGet g.nodes nid = some n → n.content.returnField = some rv →
      ∃ rn, alGet g.nodes rv = some rn ∧ ∃ v, rn.content = Content.val v) :
    ∀ nid n rv, alGet g'.nodes nid = some n → n.content.returnField = some rv →
      ∃ rn, alGet g'.nodes rv = some rn ∧ ∃ v, rn.content = Content.val v := by
  intro nid n rv h hr
  obtain ⟨n0, hg, hc⟩ := contentsSame_content hcs h
  obtain ⟨rn, hrn, v, hv⟩ := hrv nid n0 rv hg (by rw [← hc]; exact hr)
  have hmap := hcs rv
  rw [hrn] at hmap
  cases hg' : alGet g'.nodes rv with
  | none => rw [hg'] at hmap; simp at hmap
  | some rn' =>
    rw [hg'] at hmap
    simp only [Option.map_some'] at hmap
    refine ⟨rn', rfl, v, ?_⟩
    rw [(by injection hmap : rn'.content = rn.content), hv]

theorem mono_nodes_of_contentsSame {g g' : Graph} (hcs : contentsSame g g') :
    ∀ nid n, alGet g.nodes nid = some n →
      ∃ n', alGet g'.nodes nid = some n' ∧ n'.content = n.content := by
  intro nid n hn
  have hmap := hcs nid
  rw [hn] at hmap
  cases hg' : alGet g'.nodes nid with
  | none => rw [hg'] at hmap; simp at hmap
  | some n' =>
    rw [hg'] at hmap
    simp only [Option.map_some'] at hmap
    exact ⟨n', rfl, by injection hmap⟩

theorem addEdge_eq (g : Graph) (kind : EdgeKind) (p c : NodeId) :
    g.addEdge kind p c =
      match alGet g.nodes p with
      | none => none
      | some pn =>
        match alGet (alInsert g.nodes p { pn with edges := hsInsert pn.edges g.nextEdgeId }) c with
        | none => none
        | some cn =>
          some (g.nextEdgeId,
            { nextNodeId := g.nextNodeId
              nextEdgeId := g.nextEdgeId + 1
              nodes := alInsert
                (alInsert g.nodes p { pn with edges := hsInsert pn.edges g.nextEdgeId }) c
                { cn with edges := hsInsert cn.edges g.nextEdgeId }
              edges := alInsert g.edges g.nextEdgeId
                { id := g.nextEdgeId, kind := kind, producer := p, consumer := c } }) := rfl

theorem addEdge_spec (g : Graph) (kind : EdgeKind) (p c : NodeId) (eid : EdgeId)
    (g' : Graph) (hInv : Inv g) (h : g.addEdge kind p c = some (eid, g')) :
    Inv g' ∧ Mono g g' ∧ contentsSame g g' ∧ eid = g.nextEdgeId ∧
    alGet g'.edges eid = some { id := eid, kind := kind, producer := p, consumer := c } ∧
    g'.nextNodeId = g.nextNodeId ∧ g'.nextEdgeId = g.nextEdgeId + 1 := by
  rw [addEdge_eq] at h
  split at h
  · exact absurd h (by simp)
  rename_i pn hp
  split at h
  · exact absurd h (by simp)
  rename_i cn hc
  rw [Option.some.injEq, Prod.mk.injEq] at h
  obtain ⟨h1, h2⟩ := h
  subst h2
  subst h1
  -- abbreviations for the updated pieces
  set E := g.nextEdgeId with hE
  set newEdge : Edge := { id := E, kind := kind, producer := p, consumer := c } with hNewEdge
  set pn' : Node := { pn with edges := hsInsert pn.edges E } with hpn'
  set cn' : Node := { cn with edges := hsInsert cn.edges E } with hcn'
  have hEfresh : alGet g.edges E = none := fresh_edge_none g hInv
  -- lookups in the updated edge arena
  have hedges : ∀ x, alGet (alInsert g.edges E newEdge) x =
      if E = x then some newEdge else alGet g.edges x := fun x =>
    alGet_alInsert g.edges E newEdge x
  -- lookups in the updated node arena
  have hn1 : ∀ x, alGet (alInsert g.nodes p pn') x =
      if p = x then some pn' else alGet g.nodes x := fun x =>
    alGet_alInsert g.nodes p pn' x
  have hnodes : ∀ x, alGet (alInsert (alInsert g.nodes p pn') c cn') x =
      if c = x then some cn' else if p = x then some pn' else alGet g.nodes x := by
    intro x
    rw [alGet_alInsert]
    by_cases hcx : c = x <;> simp [hcx, hn1]
  -- how cn relates to the original arena
  have hcn_src : (p = c ∧ cn = pn') ∨ (p ≠ c ∧ alGet g.nodes c = some cn) := by
    by_cases hpc : p = c
    · left
      refine ⟨hpc, ?_⟩
      rw [hn1 c, if_pos hpc] at hc
      injection hc with hh
      exact hh.symm
    · right
      refine ⟨hpc, ?_⟩
      rw [hn1 c, if_neg hpc] at hc
      exact hc
  have hc_old : ∃ cn₀, alGet g.nodes c = some cn₀ ∧
      cn.content = cn₀.content ∧
      (∀ x, x ∈ cn.edges ↔ (p = c ∧ x = E) ∨ x ∈ cn₀.edges) := by
    rcases hcn_src with ⟨hpc, rfl⟩ | ⟨hpc, hcc⟩
    · subst hpc
      exact ⟨pn, hp, rfl, fun x => by
        rw [hpn']
        simp [mem_hsInsert]⟩
    · exact ⟨cn, hcc, rfl, fun x => by simp [hpc]⟩
  obtain ⟨cn₀, hcn₀, hcnc, hcne⟩ := hc_old
  have hcs : contentsSame g
      { nextNodeId := g.nextNodeId, nextEdgeId := E + 1,
        nodes := alInsert (alInsert g.nodes p pn') c cn',
        edges := alInsert g.edges E newEdge } := by
    intro nid
    show (alGet (alInsert (alInsert g.nodes p pn') c cn') nid).map Node.content =
      (alGet g.nodes nid).map Node.content
    rw [hnodes nid]
    by_cases hcx : c = nid
    · subst hcx
      rw [if_pos rfl, hcn₀]
      simp [hcnc]
    · rw [if_neg hcx]
      by_cases hpx : p = nid
      · subst hpx
        rw [if_pos rfl, hp]
        simp [hpn']
      · rw [if_neg hpx]
  -- edge sets of the updated nodes, uniformly
  have hNodeEdges : ∀ nid n', alGet (alInsert (alInsert g.nodes p pn') c cn') nid = some n' →
      ∃ n₀, alGet g.nodes nid = some n₀ ∧
        (∀ x, x ∈ n'.edges ↔ ((nid = p ∨ nid = c) ∧ x = E) ∨ x ∈ n₀.edges) := by
    intro nid n' hn'
    rw [hnodes nid] at hn'
    by_cases hcx : c = nid
    · subst hcx
      rw [if_pos rfl] at hn'
      obtain rfl : cn' = n' := by injection hn'
      refine ⟨cn₀, hcn₀, fun x => ?_⟩
      rw [hcn']
      simp only [mem_hsInsert, hcne x]
      by_cases hxE : x = E
      · subst hxE
        simp
      · simp [hxE]
    · rw [if_neg hcx] at hn'
      by_cases hpx : p = nid
      · subst hpx
        rw [if_pos rfl] at hn'
        obtain rfl : pn' = n' := by injection hn'
        refine ⟨pn, hp, fun x => ?_⟩
        rw [hpn']
        simp only [mem_hsInsert]
        by_cases hxE : x = E
        · subst hxE
          simp
        · simp [hxE]
      · rw [if_neg hpx] at hn'
        refine ⟨n', hn', fun x => ?_⟩
        constructor
        · exact Or.inr
        · rintro (⟨hor, rfl⟩ | hx)
          · rcases hor with h1 | h1
            · exact absurd h1.symm hpx
            · exact absurd h1.symm hcx
          · exact hx
  refine ⟨?_, ?_, hcs, rfl, ?_, rfl, rfl⟩
  · -- Inv g'
    constructor
    · intro nid n hn
      show nid < g.nextNodeId
      obtain ⟨n₀, hn₀, _⟩ := contentsSame_content hcs hn
      exact hInv.nodeKeyLt _ _ hn₀
    · intro eid0 e he
      show eid0 < E + 1
      rw [show (alGet (alInsert g.edges E newEdge) eid0 = some e) = _ from rfl, hedges eid0] at he
      split_ifs at he with hEx
      · rw [← hEx]
        exact Nat.lt_succ_self _
      · exact Nat.lt_succ_of_lt (hInv.edgeKeyLt _ _ he)
    · intro eid0 e he
      rw [show (alGet (alInsert g.edges E newEdge) eid0 = some e) = _ from rfl, hedges eid0] at he
      have hdom : ∀ x, (alGet g.nodes x).isSome →
          (alGet (alInsert (alInsert g.nodes p pn') c cn') x).isSome := by
        intro x hx
        rw [show alGet (alInsert (alInsert g.nodes p pn') c cn') x = _ from hnodes x]
        split_ifs <;> simp_all
      split_ifs at he with hEx
      · obtain rfl : newEdge = e := by injection he
        constructor
        · exact hdom p (by rw [hp]; rfl)
        · exact hdom c (by rw [hcn₀]; rfl)
      · obtain ⟨h1, h2⟩ := hInv.endpointsLive _ _ he
        exact ⟨hdom _ h1, hdom _ h2⟩
    · intro nid n' hn' eid0
      obtain ⟨n₀, hn₀, hedgesIff⟩ := hNodeEdges nid n' hn'
      rw [hedgesIff eid0]
      have hold := hInv.edgeSets nid n₀ hn₀ eid0
      show _ ↔ ∃ e, alGet (alInsert g.edges E newEdge) eid0 = some e ∧ _
      constructor
      · rintro (⟨hor, rfl⟩ | hx)
        · refine ⟨newEdge, by rw [hedges, if_pos rfl], ?_⟩
          rcases hor with rfl | rfl
          · exact Or.inl rfl
          · exact Or.inr rfl
        · obtain ⟨e, he, hor⟩ := hold.1 hx
          refine ⟨e, ?_, hor⟩
          rw [hedges, if_neg]
          · exact he
          · intro hEx
            rw [← hEx, hEfresh] at he
            cases he
      · rintro ⟨e, he, hor⟩
        rw [hedges] at he
        split_ifs at he with hEx
        · obtain rfl : newEdge = e := by injection he
          subst hEx
          rcases hor with hh | hh
          · exact Or.inl ⟨Or.inl hh.symm, rfl⟩
          · exact Or.inl ⟨Or.inr hh.symm, rfl⟩
        · exact Or.inr (hold.2 ⟨e, he, hor⟩)
    · exact returnsVal_transfer hcs hInv.returnsVal
  · -- Mono g g'
    constructor
    · intro eid0 e he
      show alGet (alInsert g.edges E newEdge) eid0 = some e
      rw [hedges, if_neg]
      · exact he
      · intro hEx
        rw [← hEx, hEfresh] at he
        cases he
    · exact mono_nodes_of_contentsSame hcs
  · -- the new edge is present
    show alGet (alInsert g.edges E newEdge) E = some _
    rw [hedges, if_pos rfl]

theorem funNewArgs_spec : ∀ (n : Nat) (g : Graph), Inv g →
    Inv (funNewArgs n g).2 ∧ Mono g (funNewArgs n g).2 ∧ (funNewArgs n g).1.length = n
  | 0, g, hInv => ⟨hInv, Mono.refl g, rfl⟩
  | n + 1, g, hInv => by
    have hInv1 : Inv (g.newValueNode Val.new).2 := inv_newValueNode g Val.new hInv
    have hMono1 : Mono g (g.newValueNode Val.new).2 := mono_newValueNode g Val.new hInv
    obtain ⟨hInv2, hMono2, hLen⟩ := funNewArgs_spec n (g.newValueNode Val.new).2 hInv1
    refine ⟨?_, ?_, ?_⟩
    · show Inv (funNewArgs n (g.newValueNode Val.new).2).2
      exact hInv2
    · exact mono_trans hMono1 hMono2
    · show ((g.newValueNode Val.new).1 :: (funNewArgs n (g.newValueNode Val.new).2).1).length = n + 1
      rw [List.length_cons, hLen]

theorem funNew_spec (g : Graph) (arity : Nat) (hInv : Inv g) :
    Inv (Fun.new g arity).2 ∧ Mono g (Fun.new g arity).2 ∧
    (Fun.new g arity).1.args.length = arity ∧
    alGet (Fun.new g arity).2.nodes (Fun.new g arity).1.returnValue =
      some (Node.new (funNewArgs arity g).2.nextNodeId (.val Val.new)) := by
  obtain ⟨hInv1, hMono1, hLen⟩ := funNewArgs_spec arity g hInv
  have hInv2 : Inv ((funNewArgs arity g).2.newValueNode Val.new).2 :=
    inv_newValueNode _ Val.new hInv1
  have hMono2 : Mono (funNewArgs arity g).2 ((funNewArgs arity g).2.newValueNode Val.new).2 :=
    mono_newValueNode _ Val.new hInv1
  refine ⟨hInv2, mono_trans hMono1 hMono2, hLen, ?_⟩
  exact newValueNode_get_self (funNewArgs arity g).2 Val.new

theorem newExternalFunNode_spec (g : Graph) (arity : Nat) (hInv : Inv g) :
    Inv (g.newExternalFunNode arity).2 ∧ Mono g (g.newExternalFunNode arity).2 ∧
    (Fun.new g arity).1.args.length = arity ∧
    alGet (g.newExternalFunNode arity).2.nodes (g.newExternalFunNode arity).1 =
      some (Node.new (Fun.new g arity).2.nextNodeId (.funC (Fun.new g arity).1)) := by
  obtain ⟨hInv1, hMono1, hLen, hRet⟩ := funNew_spec g arity hInv
  have hret : ∀ rv, (Content.funC (Fun.new g arity).1).returnField = some rv →
      ∃ rn, alGet (Fun.new g arity).2.nodes rv = some rn ∧ ∃ v, rn.content = Content.val v := by
    intro rv hr
    simp only [Content.returnField] at hr
    obtain rfl : (Fun.new g arity).1.returnValue = rv := by injection hr
    exact ⟨_, hRet, Val.new, rfl⟩
  have hInv2 : Inv ((Fun.new g arity).2.newNode (.funC (Fun.new g arity).1)).2 :=
    inv_newNode _ _ hInv1 hret
  have hMono2 : Mono (Fun.new g arity).2 ((Fun.new g arity).2.newNode (.funC (Fun.new g arity).1)).2 :=
    mono_newNode _ _ hInv1
  refine ⟨hInv2, mono_trans hMono1 hMono2, hLen, ?_⟩
  show alGet ((Fun.new g arity).2.newNode (.funC (Fun.new g arity).1)).2.nodes
    ((Fun.new g arity).2.newNode (.funC (Fun.new g arity).1)).1 = _
  rw [newNode_fst, newNode_nodes_get, if_pos rfl]

theorem newLocalCallNode_spec (g : Graph) (f : NodeId) (args : List NodeId) (hInv : Inv g) :
    Inv (g.newLocalCallNode f args).2 ∧ Mono g (g.newLocalCallNode f args).2 ∧
    alGet (g.newLocalCallNode f args).2.nodes (g.newLocalCallNode f args).1 =
      some (Node.new (g.newValueNode Val.new).2.nextNodeId
        (.localCall { funNode := f, args := args, returnValue := g.nextNodeId })) := by
  have hInv1 : Inv (g.newValueNode Val.new).2 := inv_newValueNode g Val.new hInv
  have hMono1 : Mono g (g.newValueNode Val.new).2 := mono_newValueNode g Val.new hInv
  have hRet : alGet (g.newValueNode Val.new).2.nodes g.nextNodeId =
      some (Node.new g.nextNodeId (.val Val.new)) := newValueNode_get_self g Val.new
  have hret : ∀ rv,
      (Content.localCall { funNode := f, args := args, returnValue := g.nextNodeId }).returnField
        = some rv →
      ∃ rn, alGet (g.newValueNode Val.new).2.nodes rv = some rn ∧
        ∃ v, rn.content = Content.val v := by
    intro rv hr
    simp only [Content.returnField] at hr
    obtain rfl : g.nextNodeId = rv := by injection hr
    exact ⟨_, hRet, Val.new, rfl⟩
  refine ⟨inv_newNode _ _ hInv1 hret, mono_trans hMono1 (mono_newNode _ _ hInv1), ?_⟩
  show alGet ((g.newValueNode Val.new).2.newNode _).2.nodes
    ((g.newValueNode Val.new).2.newNode _).1 = _
  rw [newNode_fst, newNode_nodes_get, if_pos rfl]

theorem newRemoteCallNode_spec (g : Graph) (m f : NodeId) (args : List NodeId) (hInv : Inv g) :
    Inv (g.newRemoteCallNode m f args).2 ∧ Mono g (g.newRemoteCallNode m f args).2 := by
  have hInv1 : Inv (g.newValueNode Val.new).2 := inv_newValueNode g Val.new hInv
  have hMono1 : Mono g (g.newValueNode Val.new).2 := mono_newValueNode g Val.new hInv
  have hRet : alGet (g.newValueNode Val.new).2.nodes g.nextNodeId =
      some (Node.new g.nextNodeId (.val Val.new)) := newValueNode_get_self g Val.new
  have hret : ∀ rv,
      (Content.remoteCall
        { moduleNode := m, funNode := f, args := args, returnValue := g.nextNodeId }).returnField
        = some rv →
      ∃ rn, alGet (g.newValueNode Val.new).2.nodes rv = some rn ∧
        ∃ v, rn.content = Content.val v := by
    intro rv hr
    simp only [Content.returnField] at hr
    obtain rfl : g.nextNodeId = rv := by injection hr
    exact ⟨_, hRet, Val.new, rfl⟩
  exact ⟨inv_newNode _ _ hInv1 hret, mono_trans hMono1 (mono_newNode _ _ hInv1)⟩

theorem addConjEdges_spec : ∀ (ns : List NodeId) (g : Graph) (conjId : NodeId) (g' : Graph),
    Inv g → g.addConjEdges conjId ns = some g' → Inv g' ∧ Mono g g'
  | [], g, conjId, g', hInv, h => by
    obtain rfl : g = g' := by injection h
    exact ⟨hInv, Mono.refl g⟩
  | id :: rest, g, conjId, g', hInv, h => by
    simp only [Graph.addConjEdges] at h
    split at h
    · cases h
    rename_i eid g₁ hadd
    obtain ⟨hInv1, hMono1, _⟩ := addEdge_spec g .conj id conjId eid g₁ hInv hadd
    obtain ⟨hInv2, hMono2⟩ := addConjEdges_spec rest g₁ conjId g' hInv1 h
    exact ⟨hInv2, mono_trans hMono1 hMono2⟩

theorem newConj_spec (g : Graph) (ns : List NodeId) (g' : Graph) (hInv : Inv g)
    (h : g.newConj ns = some g') : Inv g' ∧ Mono g g' := by
  have hInv1 : Inv (g.newNode (.conj { nodes := ns })).2 :=
    inv_newNode _ _ hInv (fun rv hr => by simp [Content.returnField] at hr)
  have hMono1 : Mono g (g.newNode (.conj { nodes := ns })).2 := mono_newNode _ _ hInv
  obtain ⟨hInv2, hMono2⟩ :=
    addConjEdges_spec ns (g.newNode (.conj { nodes := ns })).2
      (g.newNode (.conj { nodes := ns })).1 g' hInv1 h
  exact ⟨hInv2, mono_trans hMono1 hMono2⟩

theorem step_inv {g g' : Graph} (hInv : Inv g) (hs : Step g g') : Inv g' := by
  cases hs with
  | addEdge kind p c eid g2 h => exact (addEdge_spec _ kind p c eid _ hInv h).1
  | newConj ns g2 h => exact (newConj_spec _ ns _ hInv h).1
  | newExternalFunNode arity => exact (newExternalFunNode_spec _ arity hInv).1
  | newLocalCallNode f args => exact (newLocalCallNode_spec _ f args hInv).1
  | newRemoteCallNode m f args => exact (newRemoteCallNode_spec _ m f args hInv).1
  | newValueNode v => exact inv_newValueNode _ v hInv

theorem reachable_inv {g : Graph} (h : Reachable g) : Inv g := by
  induction h with
  | new => exact inv_new
  | step g g' _ hs ih => exact step_inv ih hs

theorem getReturnNode_eq (g : Graph) (nid : NodeId) :
    g.getReturnNode nid = (alGet g.nodes nid).bind (fun n => n.content.returnField) := by
  unfold Graph.getReturnNode
  cases h : alGet g.nodes nid with
  | none => rfl
  | some n =>
    show (match n.content with
      | .funC x => some x.returnValue
      | .localCall x => some x.returnValue
      | .remoteCall x => some x.returnValue
      | _ => none) = n.content.returnField
    cases n.content <;> rfl

theorem edgeIn_mono {g g' : Graph} (h : Mono g g') {k : EdgeKind} {p c : NodeId}
    (he : edgeIn g k p c) : edgeIn g' k p c := by
  obtain ⟨eid, e, h1, h2, h3, h4⟩ := he
  exact ⟨eid, e, h.1 eid e h1, h2, h3, h4⟩

end graph

namespace meta_rs

open graph

theorem BOk.trans {b b' b'' : GraphBuilder} (h1 : BOk b b') (h2 : BOk b' b'') :
    BOk b b'' :=
  ⟨h2.1, mono_trans h1.2 h2.2⟩

theorem BOk.rfl {b : GraphBuilder} (hInv : Inv b.graph) : BOk b b :=
  ⟨hInv, Mono.refl _⟩

theorem bok_newValueNode (b : GraphBuilder) (v : Val) (hInv : Inv b.graph)
    (bnd : List (List (String × NodeId))) :
    BOk b { graph := (b.graph.newValueNode v).2, bindings := bnd } :=
  ⟨inv_newValueNode _ v hInv, mono_newValueNode _ v hInv⟩

theorem bok_newLocalCallNode (b : GraphBuilder) (f : NodeId) (args : List NodeId)
    (hInv : Inv b.graph) (bnd : List (List (String × NodeId))) :
    BOk b { graph := (b.graph.newLocalCallNode f args).2, bindings := bnd } :=
  ⟨(newLocalCallNode_spec _ f args hInv).1, (newLocalCallNode_spec _ f args hInv).2.1⟩

theorem bok_newRemoteCallNode (b : GraphBuilder) (m f : NodeId) (args : List NodeId)
    (hInv : Inv b.graph) (bnd : List (List (String × NodeId))) :
    BOk b { graph := (b.graph.newRemoteCallNode m f args).2, bindings := bnd } :=
  ⟨(newRemoteCallNode_spec _ m f args hInv).1, (newRemoteCallNode_spec _ m f args hInv).2⟩

theorem intern_ok (b : GraphBuilder) (name : String) (id : NodeId) (b' : GraphBuilder)
    (hInv : Inv b.graph) (h : b.intern name = some (id, b')) : BOk b b' := by
  unfold GraphBuilder.intern at h
  cases hfb : b.findBinding name with
  | some id0 =>
    simp only [hfb, Option.some.injEq, Prod.mk.injEq] at h
    obtain ⟨h1, h2⟩ := h
    subst h2
    exact BOk.rfl hInv
  | none =>
    cases hb : b.bindings with
    | nil => simp [hfb, hb] at h
    | cons frame rest =>
      simp only [hfb, hb, Option.some.injEq, Prod.mk.injEq] at h
      obtain ⟨h1, h2⟩ := h
      subst h2
      exact bok_newValueNode b Val.new hInv _

mutual
theorem parseGuard_ok : ∀ (gd : Guard) (b : GraphBuilder) (r : NodeId) (b' : GraphBuilder),
    Inv b.graph → parseGuard gd b = some (r, b') → BOk b b'
  | .atomG x, b, r, b', hInv, h => by
    simp only [parseGuard, Option.some.injEq, Prod.mk.injEq] at h
    obtain ⟨_, rfl⟩ := h
    exact bok_newValueNode b _ hInv _
  | .integerG x, b, r, b', hInv, h => by
    simp only [parseGuard, Option.some.injEq, Prod.mk.injEq] at h
    obtain ⟨_, rfl⟩ := h
    exact bok_newValueNode b _ hInv _
  | .nilG, b, r, b', hInv, h => by
    simp only [parseGuard, Option.some.injEq, Prod.mk.injEq] at h
    obtain ⟨_, rfl⟩ := h
    exact bok_newValueNode b _ hInv _
  | .varG x, b, r, b', hInv, h => by
    simp only [parseGuard] at h
    split at h
    · obtain ⟨_, rfl⟩ : _ ∧ b = b' := by
        rw [Option.some.injEq, Prod.mk.injEq] at h
        exact ⟨h.1, h.2⟩
      exact BOk.rfl hInv
    · cases h
  | .binaryOpG op l r0, b, r, b', hInv, h => by
    simp only [parseGuard, Option.bind_eq_bind, Option.bind_eq_some] at h
    obtain ⟨⟨a0, b2⟩, h2, ⟨⟨a1, b3⟩, h3, h4⟩⟩ := h
    have hok1 := bok_newValueNode b (Val.withType (ty.atom ("__op_" ++ op))) hInv b.bindings
    have hok2 := parseGuard_ok l _ a0 b2 hok1.1 h2
    have hok3 := parseGuard_ok r0 b2 a1 b3 hok2.1 h3
    obtain ⟨rid, h5, h6⟩ := h4
    rw [Option.some.injEq, Prod.mk.injEq] at h6
    obtain ⟨_, rfl⟩ := h6
    exact ((hok1.trans hok2).trans hok3).trans (bok_newLocalCallNode b3 _ _ hok3.1 _)
  | .localCallG f args, b, r, b', hInv, h => by
    simp only [parseGuard, Option.bind_eq_bind, Option.bind_eq_some] at h
    obtain ⟨⟨funId, b2⟩, h2, ⟨⟨argIds, b3⟩, h3, h4⟩⟩ := h
    have hok2 := parseGuard_ok f b funId b2 hInv h2
    have hok3 := parseGuardList_ok args b2 argIds b3 hok2.1 h3
    obtain ⟨rid, h5, h6⟩ := h4
    rw [Option.some.injEq, Prod.mk.injEq] at h6
    obtain ⟨_, rfl⟩ := h6
    exact (hok2.trans hok3).trans (bok_newLocalCallNode b3 _ _ hok3.1 _)
  | .otherG, b, r, b', _, h => by cases h
termination_by structural gd _ _ _ _ _ => gd

theorem parseGuardList_ok : ∀ (gs : List Guard) (b : GraphBuilder) (rs : List NodeId)
    (b' : GraphBuilder), Inv b.graph → parseGuardList gs b = some (rs, b') → BOk b b'
  | [], b, rs, b', hInv, h => by
    simp only [parseGuardList, Option.some.injEq, Prod.mk.injEq] at h
    obtain ⟨_, rfl⟩ := h
    exact BOk.rfl hInv
  | gd :: gs, b, rs, b', hInv, h => by
    simp only [parseGuardList, Option.bind_eq_bind, Option.bind_eq_some] at h
    obtain ⟨⟨id, b2⟩, h2, ⟨⟨ids, b3⟩, h3, h4⟩⟩ := h
    rw [Option.some.injEq, Prod.mk.injEq] at h4
    obtain ⟨_, rfl⟩ := h4
    exact (parseGuard_ok gd b id b2 hInv h2).trans
      (parseGuardList_ok gs b2 ids b3 (parseGuard_ok gd b id b2 hInv h2).1 h3)
termination_by structural gs _ _ _ _ _ => gs
end

theorem parseAndGuards_ok (gs : List Guard) (b : GraphBuilder) (b' : GraphBuilder)
    (hInv : Inv b.graph) (h : parseAndGuards gs b = some b') : BOk b b' := by
  simp only [parseAndGuards, Option.bind_eq_bind, Option.bind_eq_some] at h
  obtain ⟨⟨conjs, b2⟩, h2, h3⟩ := h
  have hok2 := parseGuardList_ok gs b conjs b2 hInv h2
  obtain ⟨g', h4, h5⟩ := h3
  rw [Option.some.injEq] at h5
  subst h5
  obtain ⟨hInv3, hMono3⟩ := newConj_spec b2.graph conjs g' hok2.1 h4
  exact hok2.trans ⟨hInv3, hMono3⟩

theorem parseGuardSeq_ok : ∀ (ogs : List OrGuard) (b : GraphBuilder) (b' : GraphBuilder),
    Inv b.graph → parseGuardSeq ogs b = some b' → BOk b b'
  | [], b, b', hInv, h => by
    simp only [parseGuardSeq, Option.some.injEq] at h
    subst h
    exact BOk.rfl hInv
  | og :: rest, b, b', hInv, h => by
    simp only [parseGuardSeq, Option.bind_eq_bind, Option.bind_eq_some] at h
    obtain ⟨b2, h2, h3⟩ := h
    have hok2 := parseAndGuards_ok og.andGuards b b2 hInv h2
    exact hok2.trans (parseGuardSeq_ok rest b2 b' hok2.1 h3)

mutual
theorem parsePattern_ok : ∀ (p : Pattern) (b : GraphBuilder) (r : NodeId) (b' : GraphBuilder),
    Inv b.graph → parsePattern p b = some (r, b') → BOk b b'
  | .atomP x, b, r, b', hInv, h => by
    simp only [parsePattern, Option.some.injEq, Prod.mk.injEq] at h
    obtain ⟨_, rfl⟩ := h
    exact bok_newValueNode b _ hInv _
  | .integerP x, b, r, b', hInv, h => by
    simp only [parsePattern, Option.some.injEq, Prod.mk.injEq] at h
    obtain ⟨_, rfl⟩ := h
    exact bok_newValueNode b _ hInv _
  | .nilP, b, r, b', hInv, h => by
    simp only [parsePattern, Option.some.injEq, Prod.mk.injEq] at h
    obtain ⟨_, rfl⟩ := h
    exact bok_newValueNode b _ hInv _
  | .varP x, b, r, b', hInv, h => by
    simp only [parsePattern] at h
    exact intern_ok b x r b' hInv h
  | .matchP left right, b, r, b', hInv, h => by
    simp only [parsePattern, Option.bind_eq_bind, Option.bind_eq_some] at h
    obtain ⟨⟨leftId, b2⟩, h2, ⟨⟨rightId, b3⟩, h3, h4⟩⟩ := h
    have hok2 := parsePattern_ok left b leftId b2 hInv h2
    have hok3 := parsePattern_ok right b2 rightId b3 hok2.1 h3
    obtain ⟨⟨eid, g4⟩, h5, h6⟩ := h4
    rw [Option.some.injEq, Prod.mk.injEq] at h6
    obtain ⟨_, rfl⟩ := h6
    obtain ⟨hInv4, hMono4, _⟩ := addEdge_spec b3.graph .matchK rightId leftId eid g4 hok3.1 h5
    exact (hok2.trans hok3).trans ⟨hInv4, hMono4⟩
  | .consP head tail, b, r, b', hInv, h => by
    simp only [parsePattern, Option.bind_eq_bind, Option.bind_eq_some] at h
    obtain ⟨⟨a0, b2⟩, h2, ⟨⟨a1, b3⟩, h3, h4⟩⟩ := h
    have hok1 := bok_newValueNode b (Val.withType (ty.atom "__cons")) hInv b.bindings
    have hok2 := parsePattern_ok head _ a0 b2 hok1.1 h2
    have hok3 := parsePattern_ok tail b2 a1 b3 hok2.1 h3
    obtain ⟨rid, h5, h6⟩ := h4
    rw [Option.some.injEq, Prod.mk.injEq] at h6
    obtain ⟨_, rfl⟩ := h6
    exact ((hok1.trans hok2).trans hok3).trans (bok_newLocalCallNode b3 _ _ hok3.1 _)
  | .recordP name fields, b, r, b', hInv, h => by
    simp only [parsePattern, Option.bind_eq_bind, Option.bind_eq_some] at h
    obtain ⟨⟨argIds, b3⟩, h3, h4⟩ := h
    have hok1 := bok_newValueNode b (Val.withType (ty.atom ("__record_" ++ name))) hInv b.bindings
    have hok3 := parsePatternFields_ok name fields _ argIds b3 hok1.1 h3
    obtain ⟨rid, h5, h6⟩ := h4
    rw [Option.some.injEq, Prod.mk.injEq] at h6
    obtain ⟨_, rfl⟩ := h6
    exact (hok1.trans hok3).trans (bok_newLocalCallNode b3 _ _ hok3.1 _)
  | .tupleP elements, b, r, b', hInv, h => by
    simp only [parsePattern, Option.bind_eq_bind, Option.bind_eq_some] at h
    obtain ⟨⟨argIds, b3⟩, h3, h4⟩ := h
    have hok1 := bok_newValueNode b (Val.withType (ty.atom "__tuple")) hInv b.bindings
    have hok3 := parsePatternList_ok elements _ argIds b3 hok1.1 h3
    obtain ⟨rid, h5, h6⟩ := h4
    rw [Option.some.injEq, Prod.mk.injEq] at h6
    obtain ⟨_, rfl⟩ := h6
    exact (hok1.trans hok3).trans (bok_newLocalCallNode b3 _ _ hok3.1 _)
  | .otherP, b, r, b', _, h => by cases h
termination_by structural p _ _ _ _ _ => p

theorem parsePatternList_ok : ∀ (ps : List Pattern) (b : GraphBuilder) (rs : List NodeId)
    (b' : GraphBuilder), Inv b.graph → parsePatternList ps b = some (rs, b') → BOk b b'
  | [], b, rs, b', hInv, h => by
    simp only [parsePatternList, Option.some.injEq, Prod.mk.injEq] at h
    obtain ⟨_, rfl⟩ := h
    exact BOk.rfl hInv
  | p :: ps, b, rs, b', hInv, h => by
    simp only [parsePatternList, Option.bind_eq_bind, Option.bind_eq_some] at h
    obtain ⟨⟨id, b2⟩, h2, ⟨⟨ids, b3⟩, h3, h4⟩⟩ := h
    rw [Option.some.injEq, Prod.mk.injEq] at h4
    obtain ⟨_, rfl⟩ := h4
    exact (parsePattern_ok p b id b2 hInv h2).trans
      (parsePatternList_ok ps b2 ids b3 (parsePattern_ok p b id b2 hInv h2).1 h3)
termination_by structural ps _ _ _ _ _ => ps

theorem parsePatternFields_ok : ∀ (recName : String)
    (fs : List (Option String × Pattern)) (b : GraphBuilder) (rs : List NodeId)
    (b' : GraphBuilder), Inv b.graph →
    parsePatternFields recName fs b = some (rs, b') → BOk b b'
  | _, [], b, rs, b', hInv, h => by
    simp only [parsePatternFields, Option.some.injEq, Prod.mk.injEq] at h
    obtain ⟨_, rfl⟩ := h
    exact BOk.rfl hInv
  | recName, (fname?, fval) :: rest, b, rs, b', hInv, h => by
    simp only [parsePatternFields, Option.bind_eq_bind, Option.bind_eq_some] at h
    obtain ⟨fname, hf, ⟨⟨argId, b3⟩, h3, ⟨⟨ids, b4⟩, h4, h5⟩⟩⟩ := h
    rw [Option.some.injEq, Prod.mk.injEq] at h5
    obtain ⟨_, rfl⟩ := h5
    have hok1 := bok_newValueNode b
      (Val.withType (ty.atom ("__field_" ++ recName ++ "_" ++ fname))) hInv b.bindings
    have hok3 := parsePattern_ok fval _ argId b3 hok1.1 h3
    have hok3' := bok_newLocalCallNode b3
      ((b.graph.newValueNode (Val.withType
        (ty.atom ("__field_" ++ recName ++ "_" ++ fname)))).1) [argId] hok3.1 b3.bindings
    have hok4 := parsePatternFields_ok recName rest _ ids b4 hok3'.1 h4
    exact ((hok1.trans hok3).trans hok3').trans hok4
termination_by structural _ fs _ _ _ _ _ => fs
end

theorem parseClausePatterns_ok : ∀ (args : List NodeId) (ps : List Pattern)
    (b : GraphBuilder) (b' : GraphBuilder), Inv b.graph →
    parseClausePatterns args ps b = some b' → BOk b b'
  | _, [], b, b', hInv, h => by
    simp only [parseClausePatterns, Option.some.injEq] at h
    subst h
    exact BOk.rfl hInv
  | [], _ :: _, b, b', _, h => by cases h
  | a :: rest, p :: ps, b, b', hInv, h => by
    simp only [parseClausePatterns, Option.bind_eq_bind, Option.bind_eq_some] at h
    obtain ⟨⟨pat, b2⟩, h2, ⟨⟨eid, g3⟩, h3, h4⟩⟩ := h
    have hok2 := parsePattern_ok p b pat b2 hInv h2
    obtain ⟨hInv3, hMono3, _⟩ := addEdge_spec b2.graph .matchK a pat eid g3 hok2.1 h3
    have hok3 : BOk b2 { b2 with graph := g3 } := ⟨hInv3, hMono3⟩
    exact (hok2.trans hok3).trans
      (parseClausePatterns_ok rest ps { b2 with graph := g3 } b' hInv3 h4)

theorem bok_scopeIn (b : GraphBuilder) (hInv : Inv b.graph) : BOk b b.scopeIn :=
  ⟨hInv, Mono.refl _⟩

theorem scopeOut_ok (b : GraphBuilder) (b' : GraphBuilder) (hInv : Inv b.graph)
    (h : b.scopeOut = some b') : BOk b b' := by
  unfold GraphBuilder.scopeOut at h
  cases hb : b.bindings with
  | nil => simp [hb] at h
  | cons f rest =>
    simp only [hb, Option.some.injEq] at h
    subst h
    exact BOk.rfl hInv

mutual
theorem parseExpr_ok : ∀ (e : Expression) (b : GraphBuilder) (r : NodeId) (b' : GraphBuilder),
    Inv b.graph → parseExpr e b = some (r, b') → BOk b b'
  | .atomE x, b, r, b', hInv, h => by
    simp only [parseExpr, Option.some.injEq, Prod.mk.injEq] at h
    obtain ⟨_, rfl⟩ := h
    exact bok_newValueNode b _ hInv _
  | .integerE x, b, r, b', hInv, h => by
    simp only [parseExpr, Option.some.injEq, Prod.mk.injEq] at h
    obtain ⟨_, rfl⟩ := h
    exact bok_newValueNode b _ hInv _
  | .nilE, b, r, b', hInv, h => by
    simp only [parseExpr, Option.some.injEq, Prod.mk.injEq] at h
    obtain ⟨_, rfl⟩ := h
    exact bok_newValueNode b _ hInv _
  | .varE x, b, r, b', hInv, h => by
    simp only [parseExpr] at h
    split at h
    · rw [Option.some.injEq, Prod.mk.injEq] at h
      obtain ⟨_, h2⟩ := h
      subst h2
      exact BOk.rfl hInv
    · cases h
  | .matchE left right, b, r, b', hInv, h => by
    simp only [parseExpr, Option.bind_eq_bind, Option.bind_eq_some] at h
    obtain ⟨⟨leftId, b2⟩, h2, ⟨⟨rightId, b3⟩, h3, h4⟩⟩ := h
    have hok2 := parsePattern_ok left b leftId b2 hInv h2
    have hok3 := parseExpr_ok right b2 rightId b3 hok2.1 h3
    obtain ⟨⟨eid, g4⟩, h5, h6⟩ := h4
    rw [Option.some.injEq, Prod.mk.injEq] at h6
    obtain ⟨_, rfl⟩ := h6
    obtain ⟨hInv4, hMono4, _⟩ := addEdge_spec b3.graph .matchK rightId leftId eid g4 hok3.1 h5
    exact (hok2.trans hok3).trans ⟨hInv4, hMono4⟩
  | .caseE expr clauses, b, r, b', hInv, h => by
    simp only [parseExpr, Option.bind_eq_bind, Option.bind_eq_some] at h
    obtain ⟨⟨exprValue, b2⟩, h2, ⟨b3, h3, h4⟩⟩ := h
    have hok1 := bok_newValueNode b Val.newVar hInv b.bindings
    have hok2 := parseExpr_ok expr _ exprValue b2 hok1.1 h2
    have hok3 := parseClauseList_ok [exprValue] _ clauses b2 b3 hok2.1 h3
    rw [Option.some.injEq, Prod.mk.injEq] at h4
    obtain ⟨_, rfl⟩ := h4
    exact (hok1.trans hok2).trans hok3
  | .tryE body caseClauses catchClauses afterBody, b, r, b', hInv, h => by
    simp only [parseExpr, Option.bind_eq_bind, Option.bind_eq_some] at h
    obtain ⟨⟨bodyValue, b2⟩, h2, ⟨b3, h3, h4⟩⟩ := h
    have hok1 := bok_newValueNode b Val.newVar hInv b.bindings
    have hok2 := parseBody_ok body _ bodyValue b2 hok1.1 h2
    have hok3 := parseClauseList_ok [bodyValue] _ caseClauses b2 b3 hok2.1 h3
    have hok4 := bok_newValueNode b3 Val.newAny hok3.1 b3.bindings
    obtain ⟨b5, h5, h6⟩ := h4
    have hok5 := parseClauseList_ok [(b3.graph.newValueNode Val.newAny).1] _
      catchClauses _ b5 hok4.1 h5
    have hokPre := (((hok1.trans hok2).trans hok3).trans hok4).trans hok5
    split_ifs at h6 with hAfter
    · rw [Option.some.injEq, Prod.mk.injEq] at h6
      obtain ⟨_, rfl⟩ := h6
      exact hokPre
    · rw [Option.bind_eq_some] at h6
      obtain ⟨⟨x, b6⟩, h7, h8⟩ := h6
      rw [Option.some.injEq, Prod.mk.injEq] at h8
      obtain ⟨_, rfl⟩ := h8
      exact hokPre.trans (parseBody_ok afterBody b5 x b6 hokPre.1 h7)
  | .ifE clauses, b, r, b', hInv, h => by
    simp only [parseExpr, Option.bind_eq_bind, Option.bind_eq_some] at h
    obtain ⟨b3, h3, h4⟩ := h
    have hok1 := bok_newValueNode b Val.newVar hInv b.bindings
    have hok3 := parseClauseList_ok [] _ clauses _ b3 hok1.1 h3
    rw [Option.some.injEq, Prod.mk.injEq] at h4
    obtain ⟨_, rfl⟩ := h4
    exact hok1.trans hok3
  | .recordE name fields, b, r, b', hInv, h => by
    simp only [parseExpr, Option.bind_eq_bind, Option.bind_eq_some] at h
    obtain ⟨⟨argIds, b3⟩, h3, h4⟩ := h
    have hok1 := bok_newValueNode b (Val.withType (ty.atom ("__record_" ++ name))) hInv b.bindings
    have hok3 := parseExprFields_ok name fields _ argIds b3 hok1.1 h3
    obtain ⟨rid, h5, h6⟩ := h4
    rw [Option.some.injEq, Prod.mk.injEq] at h6
    obtain ⟨_, rfl⟩ := h6
    exact (hok1.trans hok3).trans (bok_newLocalCallNode b3 _ _ hok3.1 _)
  | .consE head tail, b, r, b', hInv, h => by
    simp only [parseExpr, Option.bind_eq_bind, Option.bind_eq_some] at h
    obtain ⟨⟨a0, b2⟩, h2, ⟨⟨a1, b3⟩, h3, h4⟩⟩ := h
    have hok1 := bok_newValueNode b (Val.withType (ty.atom "__cons")) hInv b.bindings
    have hok2 := parseExpr_ok head _ a0 b2 hok1.1 h2
    have hok3 := parseExpr_ok tail b2 a1 b3 hok2.1 h3
    obtain ⟨rid, h5, h6⟩ := h4
    rw [Option.some.injEq, Prod.mk.injEq] at h6
    obtain ⟨_, rfl⟩ := h6
    exact ((hok1.trans hok2).trans hok3).trans (bok_newLocalCallNode b3 _ _ hok3.1 _)
  | .tupleE elements, b, r, b', hInv, h => by
    simp only [parseExpr, Option.bind_eq_bind, Option.bind_eq_some] at h
    obtain ⟨⟨argIds, b3⟩, h3, h4⟩ := h
    have hok1 := bok_newValueNode b (Val.withType (ty.atom "__tuple")) hInv b.bindings
    have hok3 := parseExprList_ok elements _ argIds b3 hok1.1 h3
    obtain ⟨rid, h5, h6⟩ := h4
    rw [Option.some.injEq, Prod.mk.injEq] at h6
    obtain ⟨_, rfl⟩ := h6
    exact (hok1.trans hok3).trans (bok_newLocalCallNode b3 _ _ hok3.1 _)
  | .binaryOpE op l r0, b, r, b', hInv, h => by
    simp only [parseExpr, Option.bind_eq_bind, Option.bind_eq_some] at h
    obtain ⟨⟨a0, b2⟩, h2, ⟨⟨a1, b3⟩, h3, h4⟩⟩ := h
    have hok1 := bok_newValueNode b (Val.withType (ty.atom ("__op_" ++ op))) hInv b.bindings
    have hok2 := parseExpr_ok l _ a0 b2 hok1.1 h2
    have hok3 := parseExpr_ok r0 b2 a1 b3 hok2.1 h3
    obtain ⟨rid, h5, h6⟩ := h4
    rw [Option.some.injEq, Prod.mk.injEq] at h6
    obtain ⟨_, rfl⟩ := h6
    exact ((hok1.trans hok2).trans hok3).trans (bok_newLocalCallNode b3 _ _ hok3.1 _)
  | .localCallE f args, b, r, b', hInv, h => by
    simp only [parseExpr, Option.bind_eq_bind, Option.bind_eq_some] at h
    obtain ⟨⟨funId, b2⟩, h2, ⟨⟨argIds, b3⟩, h3, h4⟩⟩ := h
    have hok2 := parseExpr_ok f b funId b2 hInv h2
    have hok3 := parseExprList_ok args b2 argIds b3 hok2.1 h3
    obtain ⟨rid, h5, h6⟩ := h4
    rw [Option.some.injEq, Prod.mk.injEq] at h6
    obtain ⟨_, rfl⟩ := h6
    exact (hok2.trans hok3).trans (bok_newLocalCallNode b3 _ _ hok3.1 _)
  | .remoteCallE m f args, b, r, b', hInv, h => by
    simp only [parseExpr, Option.bind_eq_bind, Option.bind_eq_some] at h
    obtain ⟨⟨moduleId, b2⟩, h2, ⟨⟨funId, b3⟩, h3, ⟨⟨argIds, b4⟩, h4, h5⟩⟩⟩ := h
    have hok2 := parseExpr_ok m b moduleId b2 hInv h2
    have hok3 := parseExpr_ok f b2 funId b3 hok2.1 h3
    have hok4 := parseExprList_ok args b3 argIds b4 hok3.1 h4
    obtain ⟨rid, h6, h7⟩ := h5
    rw [Option.some.injEq, Prod.mk.injEq] at h7
    obtain ⟨_, rfl⟩ := h7
    exact ((hok2.trans hok3).trans hok4).trans (bok_newRemoteCallNode b4 _ _ _ hok4.1 _)
  | .anonymousFunE, b, r, b', hInv, h => by
    simp only [parseExpr, Option.some.injEq, Prod.mk.injEq] at h
    obtain ⟨_, rfl⟩ := h
    exact bok_newValueNode b _ hInv _
  | .otherE, b, r, b', _, h => by cases h
termination_by structural e _ _ _ _ _ => e

theorem parseExprList_ok : ∀ (es : List Expression) (b : GraphBuilder) (rs : List NodeId)
    (b' : GraphBuilder), Inv b.graph → parseExprList es b = some (rs, b') → BOk b b'
  | [], b, rs, b', hInv, h => by
    simp only [parseExprList, Option.some.injEq, Prod.mk.injEq] at h
    obtain ⟨_, rfl⟩ := h
    exact BOk.rfl hInv
  | e :: es, b, rs, b', hInv, h => by
    simp only [parseExprList, Option.bind_eq_bind, Option.bind_eq_some] at h
    obtain ⟨⟨id, b2⟩, h2, ⟨⟨ids, b3⟩, h3, h4⟩⟩ := h
    rw [Option.some.injEq, Prod.mk.injEq] at h4
    obtain ⟨_, rfl⟩ := h4
    exact (parseExpr_ok e b id b2 hInv h2).trans
      (parseExprList_ok es b2 ids b3 (parseExpr_ok e b id b2 hInv h2).1 h3)
termination_by structural es _ _ _ _ _ => es

theorem parseExprFields_ok : ∀ (recName : String)
    (fs : List (Option String × Expression)) (b : GraphBuilder) (rs : List NodeId)
    (b' : GraphBuilder), Inv b.graph →
    parseExprFields recName fs b = some (rs, b') → BOk b b'
  | _, [], b, rs, b', hInv, h => by
    simp only [parseExprFields, Option.some.injEq, Prod.mk.injEq] at h
    obtain ⟨_, rfl⟩ := h
    exact BOk.rfl hInv
  | recName, (fname?, fval) :: rest, b, rs, b', hInv, h => by
    simp only [parseExprFields, Option.bind_eq_bind, Option.bind_eq_some] at h
    obtain ⟨fname, hf, ⟨⟨argId, b3⟩, h3, ⟨⟨ids, b4⟩, h4, h5⟩⟩⟩ := h
    rw [Option.some.injEq, Prod.mk.injEq] at h5
    obtain ⟨_, rfl⟩ := h5
    have hok1 := bok_newValueNode b
      (Val.withType (ty.atom ("__field_" ++ recName ++ "_" ++ fname))) hInv b.bindings
    have hok3 := parseExpr_ok fval _ argId b3 hok1.1 h3
    have hok3' := bok_newLocalCallNode b3
      ((b.graph.newValueNode (Val.withType
        (ty.atom ("__field_" ++ recName ++ "_" ++ fname)))).1) [argId] hok3.1 b3.bindings
    have hok4 := parseExprFields_ok recName rest _ ids b4 hok3'.1 h4
    exact ((hok1.trans hok3).trans hok3').trans hok4
termination_by structural _ fs _ _ _ _ _ => fs

theorem parseBody_ok : ∀ (es : List Expression) (b : GraphBuilder) (r : NodeId)
    (b' : GraphBuilder), Inv b.graph → parseBody es b = some (r, b') → BOk b b'
  | [], b, r, b', _, h => by simp [parseBody] at h
  | [e], b, r, b', hInv, h => parseExpr_ok e b r b' hInv (by simpa [parseBody] using h)
  | e :: e2 :: rest, b, r, b', hInv, h => by
    simp only [parseBody, Option.bind_eq_bind, Option.bind_eq_some] at h
    obtain ⟨⟨x, b2⟩, h2, h3⟩ := h
    exact (parseExpr_ok e b x b2 hInv h2).trans
      (parseBody_ok (e2 :: rest) b2 r b' (parseExpr_ok e b x b2 hInv h2).1 h3)
termination_by structural es _ _ _ _ _ => es

theorem parseClause_ok : ∀ (args : List NodeId) (result : NodeId) (c : Clause)
    (b : GraphBuilder) (b' : GraphBuilder), Inv b.graph →
    parseClause args result c b = some b' → BOk b b'
  | args, result, .mk patterns guards body, b, b', hInv, h => by
    simp only [parseClause] at h
    split_ifs at h with hlen
    rw [Option.bind_eq_bind, Option.bind_eq_some] at h
    obtain ⟨b2, h2, h3⟩ := h
    rw [Option.bind_eq_bind, Option.bind_eq_some] at h3
    obtain ⟨b3, h3', h4⟩ := h3
    rw [Option.bind_eq_bind, Option.bind_eq_some] at h4
    obtain ⟨⟨res, b4⟩, h4', h5⟩ := h4
    rw [Option.bind_eq_some] at h5
    obtain ⟨⟨eid, g5⟩, h5', h6⟩ := h5
    have hok1 := bok_scopeIn b hInv
    have hok2 := parseClausePatterns_ok args patterns _ b2 hok1.1 h2
    have hok3 := parseGuardSeq_ok guards b2 b3 hok2.1 h3'
    have hok4 := parseBody_ok body b3 res b4 hok3.1 h4'
    obtain ⟨hInv5, hMono5, _⟩ := addEdge_spec b4.graph .ret res result eid g5 hok4.1 h5'
    have hok5 : BOk b4 { b4 with graph := g5 } := ⟨hInv5, hMono5⟩
    have hok6 := scopeOut_ok { b4 with graph := g5 } b' hInv5 h6
    exact (((((hok1.trans hok2).trans hok3).trans hok4).trans hok5).trans hok6)
termination_by structural _ _ c _ _ _ _ => c

theorem parseClauseList_ok : ∀ (args : List NodeId) (result : NodeId) (cs : List Clause)
    (b : GraphBuilder) (b' : GraphBuilder), Inv b.graph →
    parseClauseList args result cs b = some b' → BOk b b'
  | _, _, [], b, b', hInv, h => by
    simp only [parseClauseList, Option.some.injEq] at h
    subst h
    exact BOk.rfl hInv
  | args, result, c :: cs, b, b', hInv, h => by
    simp only [parseClauseList, Option.bind_eq_bind, Option.bind_eq_some] at h
    obtain ⟨b2, h2, h3⟩ := h
    exact (parseClause_ok args result c b b2 hInv h2).trans
      (parseClauseList_ok args result cs b2 b'
        (parseClause_ok args result c b b2 hInv h2).1 h3)
termination_by structural _ _ cs _ _ _ _ => cs
end

theorem parseClause_arity (args : List NodeId) (result : NodeId) (c : Clause)
    (b : GraphBuilder) (b' : GraphBuilder) (h : parseClause args result c b = some b') :
    args.length = (Clause.patternsOf c).length := by
  obtain ⟨patterns, guards, body⟩ := c
  simp only [parseClause, Clause.patternsOf] at h ⊢
  split_ifs at h with hlen
  exact hlen

theorem parseClause_return_edge (args : List NodeId) (result : NodeId)
    (patterns : List Pattern) (guards : List OrGuard) (body : List Expression)
    (b : GraphBuilder) (b' : GraphBuilder) (hInv : Inv b.graph)
    (h : parseClause args result (.mk patterns guards body) b = some b') :
    ∃ bmid res bpost, parseBody body bmid = some (res, bpost) ∧
      edgeIn b'.graph .ret res result := by
  simp only [parseClause] at h
  split_ifs at h with hlen
  rw [Option.bind_eq_bind, Option.bind_eq_some] at h
  obtain ⟨b2, h2, h3⟩ := h
  rw [Option.bind_eq_bind, Option.bind_eq_some] at h3
  obtain ⟨b3, h3', h4⟩ := h3
  rw [Option.bind_eq_bind, Option.bind_eq_some] at h4
  obtain ⟨⟨res, b4⟩, h4', h5⟩ := h4
  rw [Option.bind_eq_some] at h5
  obtain ⟨⟨eid, g5⟩, h5', h6⟩ := h5
  have hok1 := bok_scopeIn b hInv
  have hok2 := parseClausePatterns_ok args patterns _ b2 hok1.1 h2
  have hok3 := parseGuardSeq_ok guards b2 b3 hok2.1 h3'
  have hok4 := parseBody_ok body b3 res b4 hok3.1 h4'
  obtain ⟨_, _, _, _, hedge, _, _⟩ := addEdge_spec b4.graph .ret res result eid g5 hok4.1 h5'
  refine ⟨b3, res, b4, h4', ?_⟩
  have hb' : b'.graph = g5 := by
    unfold GraphBuilder.scopeOut at h6
    cases hbnd : b4.bindings with
    | nil =>
      rw [show ({ graph := g5, bindings := b4.bindings } : GraphBuilder).bindings
        = b4.bindings from rfl, hbnd] at h6
      simp at h6
    | cons f rest =>
      rw [show ({ graph := g5, bindings := b4.bindings } : GraphBuilder).bindings
        = b4.bindings from rfl, hbnd] at h6
      simp only [Option.some.injEq] at h6
      subst h6
      rfl
  rw [hb']
  exact ⟨eid, _, hedge, rfl, rfl, rfl⟩

theorem parseClauseList_spec : ∀ (args : List NodeId) (result : NodeId) (cs : List Clause)
    (b : GraphBuilder) (b' : GraphBuilder), Inv b.graph →
    parseClauseList args result cs b = some b' →
    BOk b b' ∧ ∀ c ∈ cs, (Clause.patternsOf c).length = args.length ∧
      ∃ bmid res bpost, parseBody (Clause.bodyOf c) bmid = some (res, bpost) ∧
        edgeIn b'.graph .ret res result
  | _, _, [], b, b', hInv, h => by
    simp only [parseClauseList, Option.some.injEq] at h
    subst h
    exact ⟨BOk.rfl hInv, fun c hc => absurd hc (List.not_mem_nil c)⟩
  | args, result, c :: cs, b, b', hInv, h => by
    simp only [parseClauseList, Option.bind_eq_bind, Option.bind_eq_some] at h
    obtain ⟨b2, h2, h3⟩ := h
    have hok2 := parseClause_ok args result c b b2 hInv h2
    obtain ⟨hokRest, hFacts⟩ := parseClauseList_spec args result cs b2 b' hok2.1 h3
    refine ⟨hok2.trans hokRest, fun c' hc' => ?_⟩
    rcases List.mem_cons.mp hc' with rfl | hmem
    · obtain ⟨patterns, guards, body⟩ := c'
      obtain ⟨bmid, res, bpost, hbody, hedge⟩ :=
        parseClause_return_edge args result patterns guards body b b2 hInv h2
      refine ⟨(parseClause_arity args result _ b b2 h2).symm,
        bmid, res, bpost, hbody, edgeIn_mono hokRest.2 hedge⟩
    · exact hFacts c' hmem

theorem build_fun_node_shape (decl : FunDecl) (n : Nat)
    (hn : ∀ c ∈ decl.clauses, (Clause.patternsOf c).length = n)
    (g : Graph) (hg : buildGraph decl = some g) :
    ∃ funId node fc,
      alGet g.nodes funId = some node ∧
      node.content = Content.funC fc ∧
      fc.args.length = n ∧
      ∀ c ∈ decl.clauses,
        ∃ bmid res bpost, parseBody (Clause.bodyOf c) bmid = some (res, bpost) ∧
          edgeIn g .ret res fc.returnValue := by
  unfold buildGraph GraphBuilder.build at hg
  cases hd : decl.clauses with
  | nil =>
    rw [hd] at hg
    cases hg
  | cons c0 rest =>
    rw [hd] at hg
    simp only [GraphBuilder.new] at hg
    set arity := (Clause.patternsOf c0).length % 256 with hA
    set fc := (Fun.new Graph.new arity).1 with hFc
    set funNodeId := (Graph.new.newExternalFunNode arity).1 with hFid
    set g1 := (Graph.new.newExternalFunNode arity).2 with hG1
    obtain ⟨hInv1, hMono1, hLen, hfid⟩ := newExternalFunNode_spec Graph.new arity inv_new
    have hfid' : alGet g1.nodes funNodeId =
        some (Node.new (Fun.new Graph.new arity).2.nextNodeId (.funC fc)) := hfid
    have hga : g1.getArgs funNodeId = some fc.args := by
      unfold Graph.getArgs
      rw [hfid']
      rfl
    have hgr : g1.getReturnNode funNodeId = some fc.returnValue := by
      rw [getReturnNode_eq, hfid']
      rfl
    rw [hga, hgr] at hg
    rw [Option.bind_eq_bind, Option.bind_eq_some] at hg
    obtain ⟨args, hargs, hg⟩ := hg
    rw [Option.bind_eq_bind, Option.bind_eq_some] at hg
    obtain ⟨funReturn, hfr, hg⟩ := hg
    rw [Option.bind_eq_bind, Option.bind_eq_some] at hg
    obtain ⟨bf, hbf, hg⟩ := hg
    rw [Option.some.injEq] at hg
    obtain ⟨rfl, rfl⟩ : args = fc.args ∧ funReturn = fc.returnValue :=
      ⟨by injection hargs with hh; exact hh.symm, by injection hfr with hh; exact hh.symm⟩
    subst hg
    obtain ⟨hokF, hFacts⟩ := parseClauseList_spec fc.args fc.returnValue (c0 :: rest)
      { graph := g1, bindings := [] } bf hInv1 hbf
    obtain ⟨node', hnode', hcontent'⟩ := hokF.2.2 funNodeId _ hfid'
    have hc0len : (Clause.patternsOf c0).length = fc.args.length :=
      (hFacts c0 (List.mem_cons_self c0 rest)).1
    have hfcn : fc.args.length = n := by
      rw [← hc0len]
      exact hn c0 (hd ▸ List.mem_cons_self c0 rest)
    refine ⟨funNodeId, node', fc, hnode', ?_, hfcn, ?_⟩
    · rw [hcontent']
      rfl
    · intro c hc
      have hc' : c ∈ c0 :: rest := hd ▸ hc
      exact (hFacts c hc').2

end meta_rs

/-- C2: the three `Val` constructors seed the producible/consumable pair as
specified: `Val::new` gives `Any`/`Any`, `Val::new_var` gives `None`/`Any`,
and `Val::with_type(t)` gives `t`/`t` for every type `t`. -/
theorem c2_val_constructors_seed_types :
    (graph.Val.new.producibleType = ty.Ty.anyTy ∧
     graph.Val.new.consumableType = ty.Ty.anyTy) ∧
    (graph.Val.newVar.producibleType = ty.Ty.noneTy ∧
     graph.Val.newVar.consumableType = ty.Ty.anyTy) ∧
    (∀ t : ty.Ty, (graph.Val.withType t).producibleType = t ∧
     (graph.Val.withType t).consumableType = t) :=
  ⟨⟨rfl, rfl⟩, ⟨rfl, rfl⟩, fun _ => ⟨rfl, rfl⟩⟩

/-- C4: in every graph reachable from `Graph::new()` by the public
operations, every node's stored edge-id set equals exactly the set of edge
ids whose edge has that node as producer or consumer. -/
theorem c4_edge_sets_exact (g : graph.Graph) (h : graph.Reachable g) :
    graph.edgeSetsExact g :=
  (graph.reachable_inv h).edgeSets

/-- Witness for C4: the invariant instantiated at a concrete reachable graph
(two value nodes joined by a `Match` edge). -/
theorem c4_edge_sets_exact_witness : graph.edgeSetsExact graph.c4Graph :=
  c4_edge_sets_exact graph.c4Graph
    (graph.Reachable.step graph.c4Graph2 graph.c4Graph
      (graph.Reachable.step graph.c4Graph1 graph.c4Graph2
        (graph.Reachable.step graph.Graph.new graph.c4Graph1 graph.Reachable.new
          (graph.Step.newValueNode graph.Graph.new graph.Val.new))
        (graph.Step.newValueNode graph.c4Graph1 graph.Val.newVar))
      (graph.Step.addEdge graph.c4Graph2 .matchK 0 1 0 graph.c4Graph rfl))

/-- C5: in every graph built through the public operations, every node with
`Fun`, `LocalCall` or `RemoteCall` content has `get_return_node` returning
`Some` id of a node that exists in the graph and has `Val` content. -/
theorem c5_call_nodes_have_val_return (g : graph.Graph) (h : graph.Reachable g) :
    ∀ nid n, alGet g.nodes nid = some n → n.content.isCallLike →
      ∃ rid, g.getReturnNode nid = some rid ∧
        ∃ rn, alGet g.nodes rid = some rn ∧ ∃ v, rn.content = graph.Content.val v := by
  intro nid n hn hcall
  have hInv := graph.reachable_inv h
  have hrf : ∃ rv, n.content.returnField = some rv := by
    cases hc : n.content <;>
      simp [graph.Content.isCallLike, hc] at hcall <;>
      simp [graph.Content.returnField]
  obtain ⟨rv, hrv⟩ := hrf
  obtain ⟨rn, hrn, v, hv⟩ := hInv.returnsVal nid n rv hn hrv
  refine ⟨rv, ?_, rn, hrn, v, hv⟩
  rw [graph.getReturnNode_eq, hn]
  simp [hrv]

/-- Witness for C5 at a concrete reachable graph: a local-call node (id 2)
whose return node (id 1) is a live `Val` node. -/
theorem c5_call_nodes_have_val_return_witness :
    ∃ rid, graph.c5Graph.getReturnNode 2 = some rid ∧
      ∃ rn, alGet graph.c5Graph.nodes rid = some rn ∧
        ∃ v, rn.content = graph.Content.val v :=
  c5_call_nodes_have_val_return graph.c5Graph
    (graph.Reachable.step graph.c5Graph0 graph.c5Graph
      (graph.Reachable.step graph.Graph.new graph.c5Graph0 graph.Reachable.new
        (graph.Step.newValueNode graph.Graph.new graph.Val.new))
      (graph.Step.newLocalCallNode graph.c5Graph0 0 [0]))
    2 (graph.Node.new 2 (.localCall { funNode := 0, args := [0], returnValue := 1 }))
    rfl trivial

/-- Counterexample for C7: node 2 of `c7Graph` has `LocalCall` content
carrying the ordered argument vector `[0]`, yet `get_args` returns `None`
for it (the source only matches `Fun` content). -/
theorem c7_get_args_counterexample :
    alGet graph.c7Graph.nodes 2 =
      some (graph.Node.new 2
        (.localCall { funNode := 0, args := [0], returnValue := 1 })) ∧
    graph.c7Graph.getArgs 2 = none :=
  ⟨rfl, rfl⟩

/-- C7 (amended): `get_args` returns the stored ordered argument vector for
`Fun` content only; for every other content — including `LocalCall` and
`RemoteCall`, which do carry ordered argument vectors — it returns `None`. -/
theorem c7_get_args_amended (g : graph.Graph) (nid : graph.NodeId) (n : graph.Node)
    (h : alGet g.nodes nid = some n) :
    g.getArgs nid = match n.content with
      | .funC f => some f.args
      | _ => none := by
  cases hc : n.content <;> simp [graph.Graph.getArgs, h, hc]

/-- Witness for the amended C7, at the concrete graph `c7Graph`. -/
theorem c7_get_args_amended_witness :
    graph.c7Graph.getArgs 2 =
      match (graph.Node.new 2
        (.localCall { funNode := 0, args := [0], returnValue := 1 })).content with
      | .funC f => some f.args
      | _ => none :=
  c7_get_args_amended graph.c7Graph 2
    (graph.Node.new 2 (.localCall { funNode := 0, args := [0], returnValue := 1 })) rfl

/-- C1 (code bug): `UserDefinedClass::make_instance` never substitutes —
`Type::bind` is `unimplemented!()`, so every instantiation panics.  In
particular instantiating the class of `type opt(T) :: T | undefined`
(spec scenario S3) with any argument list aborts instead of producing
`UserDefined { name := "opt", body := Union[integer(), atom undefined] }`. -/
theorem c1_make_instance_always_panics :
    ∀ args : List ty.Ty, ty.optClass.makeInstance args = none := by
  intro args
  unfold ty.UserDefinedClass.makeInstance
  split_ifs <;> rfl

/-- C9: `IntegerType::value(v)` yields the singleton interval
`[Some v, Some v]` from any starting interval, and `get_single_value`
returns `Some v` iff both bounds are `Some v` (in particular `integer()`,
with both bounds absent, gives `None`). -/
theorem c9_integer_value_and_single_value :
    (∀ (t : ty.IntegerType) (v : Int),
      t.value v = { min := some v, max := some v }) ∧
    (∀ (t : ty.IntegerType) (v : Int),
      t.getSingleValue = some v ↔ (t.min = some v ∧ t.max = some v)) ∧
    ty.integer.getSingleValue = none := by
  refine ⟨fun t v => rfl, fun t v => ?_, rfl⟩
  unfold ty.IntegerType.getSingleValue
  constructor
  · intro h
    split_ifs at h with he
    refine ⟨h, ?_⟩
    rw [← he]
    exact h
  · rintro ⟨h1, h2⟩
    rw [if_pos (h1.trans h2.symm), h1]

/-- C10: the blanket `TypeClass` impl for nullary prototypes is the identity
on the empty argument list: `make_instance([])` returns the prototype
itself (as a `Type`), for every prototype. -/
theorem c10_nullary_prototype_identity :
    ∀ t : ty.Ty, ty.protoMakeInstance t [] = some t :=
  fun _ => rfl

/-- C6 (code bug): after `Env::new()`, the helper `a2` keys
`maybe_improper_list` and `nonempty_improper_list` under arity 1 (its body
reads `TypeKey::builtin(name, 1)`), so the dictionary has no arity-2
mapping for either name; `list/1` and `nonempty_list/1` are present as
specified. -/
theorem c6_improper_list_arity_keys :
    typing.envTypesGet (typing.TypeKey.builtin "maybe_improper_list" 2) = none ∧
    typing.envTypesGet (typing.TypeKey.builtin "nonempty_improper_list" 2) = none ∧
    typing.envTypesGet (typing.TypeKey.builtin "maybe_improper_list" 1) =
      some erl_type.TypeClassV.maybeImproperListClass ∧
    typing.envTypesGet (typing.TypeKey.builtin "nonempty_improper_list" 1) =
      some erl_type.TypeClassV.nonEmptyImproperListClass ∧
    typing.envTypesGet (typing.TypeKey.builtin "list" 1) =
      some erl_type.TypeClassV.properListClass ∧
    typing.envTypesGet (typing.TypeKey.builtin "nonempty_list" 1) =
      some erl_type.TypeClassV.nonEmptyListClass :=
  ⟨rfl, rfl, rfl, rfl, rfl, rfl⟩

/-- Counterexample for C8: lowering a binary-op type form (here `1 '+' 2`)
and a bit-string type form does not return a structured lowering-error
value — `from_ast` has return type `ty::Type` with no error channel — it
aborts the process via a fragment-printing panic (the panic message carries
the debug form of the offending fragment). -/
theorem c8_lowering_counterexample :
    ast.fromAst (ast.AstTy.binaryOpA "'+'" (.integerA 1) (.integerA 2)) =
      Except.error (ast.PanicMsg.fragment
        (ast.AstTy.binaryOpA "'+'" (.integerA 1) (.integerA 2))) ∧
    ast.fromAst ast.AstTy.bitStringA =
      Except.error (ast.PanicMsg.fragment ast.AstTy.bitStringA) :=
  ⟨rfl, rfl⟩

/-- C8 (amended): for every binary-op type form (any operator, `'-'`
included: only unary minus is supported) and for the bit-string type form,
lowering rejects the form by panicking, and the panic carries the offending
AST fragment; no lattice value is produced and no error value is returned. -/
theorem c8_lowering_amended (t : ast.AstTy)
    (h : (∃ op l r, t = ast.AstTy.binaryOpA op l r) ∨ t = ast.AstTy.bitStringA) :
    ast.fromAst t = Except.error (ast.PanicMsg.fragment t) := by
  rcases h with ⟨op, l, r, rfl⟩ | rfl
  · rfl
  · rfl

/-- Witness for the amended C8 at the bit-string form. -/
theorem c8_lowering_amended_witness :
    ast.fromAst ast.AstTy.bitStringA =
      Except.error (ast.PanicMsg.fragment ast.AstTy.bitStringA) :=
  c8_lowering_amended ast.AstTy.bitStringA (Or.inr rfl)

/-- C3: for every graph the builder produces from a function declaration of
arity `n` (every clause having `n` patterns), the external fun node has
exactly `n` argument nodes, and for every clause a `Return`-kind edge runs
from the node of the clause's last body expression (the node `parse_body`
returned for that clause) to the fun node's return node. -/
theorem c3_build_graph_shape (decl : meta_rs.FunDecl) (n : Nat)
    (hn : ∀ c ∈ decl.clauses, (meta_rs.Clause.patternsOf c).length = n)
    (g : graph.Graph) (hg : meta_rs.buildGraph decl = some g) :
    ∃ funId node fc,
      alGet g.nodes funId = some node ∧
      node.content = graph.Content.funC fc ∧
      fc.args.length = n ∧
      ∀ c ∈ decl.clauses,
        ∃ bmid res bpost,
          meta_rs.parseBody (meta_rs.Clause.bodyOf c) bmid = some (res, bpost) ∧
          graph.edgeIn g .ret res fc.returnValue :=
  meta_rs.build_fun_node_shape decl n hn g hg

/-- Witness for C3 at spec scenario S4 (`f(X) -> X.`, arity 1). -/
theorem c3_build_graph_shape_witness :
    (∀ c ∈ meta_rs.s4decl.clauses, (meta_rs.Clause.patternsOf c).length = 1) ∧
    ∃ funId node fc,
      alGet meta_rs.s4Graph.nodes funId = some node ∧
      node.content = graph.Content.funC fc ∧
      fc.args.length = 1 ∧
      ∀ c ∈ meta_rs.s4decl.clauses,
        ∃ bmid res bpost,
          meta_rs.parseBody (meta_rs.Clause.bodyOf c) bmid = some (res, bpost) ∧
          graph.edgeIn meta_rs.s4Graph .ret res fc.returnValue := by
  have hn : ∀ c ∈ meta_rs.s4decl.clauses, (meta_rs.Clause.patternsOf c).length = 1 := by
    intro c hc
    cases hc with
    | head => rfl
    | tail _ h => cases h
  exact ⟨hn, c3_build_graph_shape meta_rs.s4decl 1 hn meta_rs.s4Graph rfl⟩

